import Mathlib

/-!
Verification development for a distributed, replicated key-value transaction
simulator (snapshot isolation with first-committer-wins and a serialization
graph cycle check).  The definitions below are a shallow embedding of the
TypeScript sources: `VersionStore.ts`, `SiteManager.ts`, `ReplicationRouter.ts`,
`ConcurrencyControl.ts`, `TransactionManager.ts` and `Driver.ts`.

Modelling conventions:
* JavaScript `Map`s are modelled as insertion-ordered association lists
  (`List (K × V)`); `Map.set` replaces in place or appends (`aset`),
  in-place mutation of a stored object is `updAssoc`, `Map.delete` is
  `adelete`.  JavaScript `Set`s are insertion-ordered duplicate-free lists
  (`sinsert`).
* `console.log` output is modelled as a list of `Line` values, one
  constructor per distinct message shape.
* Code paths that `throw` in the source (programmer errors such as a
  missing site in the version store) are modelled with `Except`
  (`addVersion`); the driver-level wrapper totalizes them exactly where the
  source can never hit the throw.
-/

namespace RepSim

/-! ## Association list and set helpers (JavaScript Map / Set semantics) -/

def alookup {α β : Type} [DecidableEq α] : List (α × β) → α → Option β
  | [], _ => none
  | (k, v) :: t, a => if k = a then some v else alookup t a

/-- Map.set semantics: replace the first binding in place, else append. -/
def aset {α β : Type} [DecidableEq α] : List (α × β) → α → β → List (α × β)
  | [], a, b => [(a, b)]
  | (k, v) :: t, a, b => if k = a then (a, b) :: t else (k, v) :: aset t a b

/-- Mutation of the value stored under a key, in place (no-op when absent). -/
def updAssoc {α β : Type} [DecidableEq α] (l : List (α × β)) (a : α) (f : β → β) :
    List (α × β) :=
  l.map fun p => if p.1 = a then (p.1, f p.2) else p

/-- Map.delete semantics. -/
def adelete {α β : Type} [DecidableEq α] (l : List (α × β)) (a : α) : List (α × β) :=
  l.filter fun p => if p.1 = a then false else true

/-- Set.add semantics: append if not already present. -/
def sinsert {α : Type} [DecidableEq α] (l : List α) (a : α) : List α :=
  if a ∈ l then l else l ++ [a]

/-! ## Data model (`types.ts`) -/

structure Version where
  timestamp : Nat
  value : Int
deriving DecidableEq, Repr

inductive SiteState
  | Up
  | Failed
  | Recovering
deriving DecidableEq, Repr

inductive TransactionStatus
  | Active
  | Committed
  | Aborted
deriving DecidableEq, Repr

/-- Uptime interval `{start, end?}`; the source field `end` is `stop` here. -/
structure UptimeInterval where
  start : Nat
  stop : Option Nat
deriving DecidableEq, Repr

structure Site where
  state : SiteState
  uptimeIntervals : List UptimeInterval
  replicatedReadEnabled : List (Nat × Bool)
deriving DecidableEq, Repr

structure ReadEntry where
  siteId : Nat
  timestamp : Nat
deriving DecidableEq, Repr

structure WriteEntry where
  value : Int
  targetSites : List Nat
deriving DecidableEq, Repr

structure Transaction where
  status : TransactionStatus
  beginTimestamp : Nat
  commitTimestamp : Option Nat
  readSet : List (Nat × ReadEntry)
  writeSet : List (Nat × WriteEntry)
  touchedSites : List Nat
deriving DecidableEq, Repr

structure LastWriterInfo where
  transactionId : String
  commitTime : Nat
deriving DecidableEq, Repr

abbrev Store := List (Nat × List (Nat × List Version))
abbrev SiteMap := List (Nat × Site)
abbrev Graph := List (String × List String)

/-- Whole simulator state: VersionStore, SiteManager, TransactionManager and
ConcurrencyControl data, owned by one `Driver` instance. -/
structure SimState where
  versionStore : Store
  sites : SiteMap
  txns : List (String × Transaction)
  currentTime : Nat
  lastWriter : List (Nat × LastWriterInfo)
  graph : Graph
  writeHistory : List (String × List (Nat × Nat))
  readHistory : List (String × List Nat)
deriving DecidableEq, Repr

/-! ## Output lines -/

inductive AbortReason
  | siteFailed (s : Nat)
  | siteFailureAfterAccess
  | noAvailableSiteForWrite
  | fcwConflict (varId : Nat) (writer : String)
  | serializationCycle
deriving DecidableEq, Repr

inductive Line
  | txAlreadyExists (t : String)
  | txDoesNotExist (t : String)
  | txNotActive (t : String)
  | txAlreadyEnded (t : String) (s : TransactionStatus)
  | readValue (t : String) (i : Nat) (v : Int)
  | readFromWriteSet (t : String) (i : Nat) (v : Int)
  | cannotReadNoSite (t : String) (i : Nat)
  | cannotReadNoVersion (t : String) (i : Nat)
  | commits (t : String)
  | aborts (t : String) (r : AbortReason)
  | dumpAllSites (i : Nat) (v : Int)
  | dumpAtSite (i : Nat) (v : Int) (s : Nat)
  | allOther
  | allInitial
  | dumpVarLine (i : Nat) (vals : List (Int × Nat))
  | dumpSiteVar (i : Nat) (v : Int)
deriving DecidableEq, Repr

/-! ## VersionStore (`VersionStore.ts`) -/

inductive StoreError
  | siteNotFound (s : Nat)
  | variableNotFound (s i : Nat)
deriving DecidableEq, Repr

/-- Seed each listed variable with the initial version `⟨0, 10·i⟩`. -/
def initSiteVars (varIds : List Nat) : List (Nat × List Version) :=
  varIds.map fun i => (i, [⟨0, (i : Int) * 10⟩])

def hasVariable (store : Store) (s i : Nat) : Bool :=
  match alookup store s with
  | some ss => (alookup ss i).isSome
  | none => false

/-- VersionStore.addVersion: push a committed version.  The source throws on a
missing site or variable; no timestamp-ordering check is performed. -/
def addVersion (store : Store) (s i ts : Nat) (v : Int) :
    Except StoreError Store :=
  match alookup store s with
  | none => .error (.siteNotFound s)
  | some ss =>
    match alookup ss i with
    | none => .error (.variableNotFound s i)
    | some _ =>
      .ok (updAssoc store s fun ss0 =>
        updAssoc ss0 i fun vers => vers ++ [⟨ts, v⟩])

/-- Totalized addVersion used by commit.  The error branch mirrors a source
`throw` that commit can never trigger: commit targets were snapshotted from
sites that hold the variable. -/
def addVersionRun (store : Store) (s i ts : Nat) (v : Int) : Store :=
  match addVersion store s i ts v with
  | .ok st => st
  | .error _ => store

/-- Scan for the latest version with `timestamp ≤ ts` (source loop order). -/
def bestVersion (vers : List Version) (ts : Nat) : Option Version :=
  vers.foldl
    (fun acc ver =>
      if ver.timestamp ≤ ts then
        match acc with
        | none => some ver
        | some l => if l.timestamp < ver.timestamp then some ver else acc
      else acc)
    none

def getVersion (store : Store) (s i ts : Nat) : Option Version :=
  match alookup store s with
  | none => none
  | some ss =>
    match alookup ss i with
    | none => none
    | some vers => if vers.isEmpty then none else bestVersion vers ts

def getLatestVersion (store : Store) (s i : Nat) : Option Version :=
  match alookup store s with
  | none => none
  | some ss =>
    match alookup ss i with
    | none => none
    | some vers => vers.getLast?

def getAllVariables (store : Store) (s : Nat) : List (Nat × Version) :=
  match alookup store s with
  | none => []
  | some ss => ss.filterMap fun p => (p.2.getLast?).map fun v => (p.1, v)

/-! ## SiteManager (`SiteManager.ts`) -/

def NUM_SITES : Nat := 10
def NUM_VARIABLES : Nat := 20

def siteIds : List Nat := (List.range NUM_SITES).map (· + 1)

/-- Replicated (even) variable ids 2, 4, …, 20, in source loop order. -/
def evenVarIds : List Nat := (List.range 10).map fun k => 2 * (k + 1)

/-- Odd variable ids 1, 3, …, 19, in source loop order. -/
def oddVarIds : List Nat := (List.range 10).map fun k => 2 * k + 1

def isReplicated (i : Nat) : Bool := i % 2 = 0

/-- Home site of a non-replicated variable: `1 + ((i−1) mod 10)`.  The source
throws when `i` is replicated; every caller guards on non-replication. -/
def getSiteForVariable (i : Nat) : Nat := 1 + (i - 1) % 10

def variableIdsForSite (s : Nat) : List Nat :=
  evenVarIds ++ oddVarIds.filter fun i => getSiteForVariable i = s

def mkSite : Site :=
  { state := .Up
    uptimeIntervals := [⟨0, none⟩]
    replicatedReadEnabled := evenVarIds.map fun i => (i, true) }

/-- SiteManager.fail: close the trailing open uptime interval.  The source
throws on an unknown site id; the driver only passes ids of existing sites. -/
def failSite (sites : SiteMap) (s t : Nat) : SiteMap :=
  updAssoc sites s fun site =>
    if site.state = .Failed then site
    else
      { site with
        state := .Failed
        uptimeIntervals :=
          match site.uptimeIntervals.getLast? with
          | some last =>
            if last.stop = none then
              site.uptimeIntervals.dropLast ++ [{ last with stop := some t }]
            else site.uptimeIntervals
          | none => site.uptimeIntervals }

/-- SiteManager.recover: open a fresh uptime interval and read-disable every
replicated variable held at the site. -/
def recoverSite (store : Store) (sites : SiteMap) (s t : Nat) : SiteMap :=
  updAssoc sites s fun site =>
    if site.state = .Failed then
      { site with
        state := .Recovering
        uptimeIntervals := site.uptimeIntervals ++ [⟨t, none⟩]
        replicatedReadEnabled :=
          evenVarIds.foldl
            (fun m i => if hasVariable store s i then aset m i false else m)
            site.replicatedReadEnabled }
    else site

/-- SiteManager.enableReplicatedRead: re-enable one replicated variable; move
the site to Up once every replicated variable it holds is enabled. -/
def enableReplicatedRead (store : Store) (sites : SiteMap) (s i : Nat) : SiteMap :=
  updAssoc sites s fun site =>
    if site.state = .Recovering ∧ isReplicated i then
      let rre := aset site.replicatedReadEnabled i true
      let allEnabled :=
        evenVarIds.all fun j =>
          if hasVariable store s j then (alookup rre j).getD false else true
      { site with
        replicatedReadEnabled := rre
        state := if allEnabled then .Up else site.state }
    else site

def isAvailable (sites : SiteMap) (s : Nat) : Bool :=
  match alookup sites s with
  | some site => if site.state = .Failed then false else true
  | none => false

def wasContinuouslyUp (sites : SiteMap) (s a b : Nat) : Bool :=
  match alookup sites s with
  | none => false
  | some site =>
    site.uptimeIntervals.any fun iv =>
      if iv.start ≤ a then
        match iv.stop with
        | none => true
        | some e => if b ≤ e then true else false
      else false

def canRead (store : Store) (sites : SiteMap) (s i : Nat) : Bool :=
  match alookup sites s with
  | none => false
  | some site =>
    if site.state = .Failed then false
    else if hasVariable store s i then
      if isReplicated i ∧ site.state = .Recovering then
        (alookup site.replicatedReadEnabled i).getD false
      else true
    else false

def getAllSiteIds (sites : SiteMap) : List Nat := sites.map Prod.fst

def getAvailableSites (sites : SiteMap) : List Nat :=
  (sites.filter fun p => if p.2.state = .Failed then false else true).map Prod.fst

/-! ## ReplicationRouter (`ReplicationRouter.ts`) -/

def canReadFromSite (store : Store) (sites : SiteMap) (s i : Nat) : Bool :=
  isAvailable sites s && hasVariable store s i && canRead store sites s i

/-- One iteration of the selectReadSite loop: the three gates (availability,
snapshot version, continuity) applied to one candidate site. -/
def tryReadSite (store : Store) (sites : SiteMap) (s i b : Nat) :
    Option (Nat × Nat) :=
  if canReadFromSite store sites s i then
    match getVersion store s i b with
    | some ver =>
      if wasContinuouslyUp sites s ver.timestamp b then some (s, ver.timestamp)
      else none
    | none => none
  else none

/-- ReplicationRouter.selectReadSite: first eligible site in ascending id
order for replicated variables, the home site otherwise. -/
def selectReadSite (store : Store) (sites : SiteMap) (i b : Nat) :
    Option (Nat × Nat) :=
  if isReplicated i then
    (getAvailableSites sites).findSome? fun s => tryReadSite store sites s i b
  else tryReadSite store sites (getSiteForVariable i) i b

def selectWriteSites (store : Store) (sites : SiteMap) (i : Nat) : List Nat :=
  if isReplicated i then
    (getAvailableSites sites).filter fun s => hasVariable store s i
  else
    if isAvailable sites (getSiteForVariable i) then [getSiteForVariable i]
    else []

def getSitesForVariable (store : Store) (sites : SiteMap) (i : Nat) : List Nat :=
  (getAllSiteIds sites).filter fun s => hasVariable store s i

/-! ## ConcurrencyControl (`ConcurrencyControl.ts`) -/

def registerTransaction (g : Graph) (t : String) : Graph :=
  if (alookup g t).isSome then g else aset g t []

def addEdge (g : Graph) (u v : String) : Graph :=
  updAssoc (registerTransaction (registerTransaction g u) v) u fun es =>
    sinsert es v

/-- ConcurrencyControl.recordRead: remember the read and add a WR edge from
the transaction whose committed write produced this version, if any. -/
def recordRead (st : SimState) (reader : String) (i vts : Nat) : SimState :=
  let g0 := registerTransaction st.graph reader
  let rh :=
    match alookup st.readHistory reader with
    | some s => aset st.readHistory reader (sinsert s i)
    | none => aset st.readHistory reader (sinsert [] i)
  let g1 :=
    match st.writeHistory.find? fun p => alookup p.2 i = some vts with
    | some p => addEdge g0 p.1 reader
    | none => g0
  { st with graph := g1, readHistory := rh }

/-- ConcurrencyControl.checkFirstCommitterWins: reject when some written
variable has a last committed writer newer than the begin timestamp. -/
def checkFirstCommitterWins (lw : List (Nat × LastWriterInfo))
    (tx : Transaction) : Option AbortReason :=
  tx.writeSet.findSome? fun p =>
    match alookup lw p.1 with
    | some w =>
      if tx.beginTimestamp < w.commitTime then
        some (.fcwConflict p.1 w.transactionId)
      else none
    | none => none

/-- WW edges: previous committed writer of each written variable → committer. -/
def addWWEdges (g : Graph) (lw : List (Nat × LastWriterInfo)) (t : String)
    (ws : List (Nat × WriteEntry)) : Graph :=
  ws.foldl
    (fun g1 p =>
      match alookup lw p.1 with
      | some w => if w.transactionId = t then g1 else addEdge g1 w.transactionId t
      | none => g1)
    g

/-- RW anti-dependency edges: every recorded reader of a written variable →
committer. -/
def addRWEdges (g : Graph) (rh : List (String × List Nat)) (t : String)
    (ws : List (Nat × WriteEntry)) : Graph :=
  ws.foldl
    (fun g1 p =>
      rh.foldl
        (fun g2 q =>
          if q.1 ≠ t ∧ p.1 ∈ q.2 then addEdge g2 q.1 t else g2)
        g1)
    g

def graphSucc (g : Graph) (n : String) : List String := (alookup g n).getD []

/-- DFS step of ConcurrencyControl.hasCycle.  `stack` is the recursion stack
of the source (the chain of in-progress ancestors); `visited` is threaded
through.  Fuel only bounds the recursion depth: each nested call is on a node
not yet visited, so depth never exceeds the number of graph nodes and the
fuel chosen by `hasCycle` cannot run out. -/
def dfsVisit (g : Graph) : Nat → List String → String → List String →
    Bool × List String
  | 0, _, _, visited => (true, visited)
  | fuel + 1, stack, n, visited =>
    if n ∈ visited then (false, visited)
    else
      (graphSucc g n).foldl
        (fun acc m =>
          match acc with
          | (true, vis) => (true, vis)
          | (false, vis) =>
            if m ∈ vis then
              if m ∈ n :: stack then (true, vis) else (false, vis)
            else dfsVisit g fuel (n :: stack) m vis)
        (false, n :: visited)

def hasCycle (g : Graph) (start : String) : Bool :=
  (dfsVisit g (g.length + 1) [] start []).1

def ccCommitTransaction (st : SimState) (t : String) (tx : Transaction)
    (ct : Nat) : SimState :=
  { st with
    lastWriter := tx.writeSet.foldl (fun lw p => aset lw p.1 ⟨t, ct⟩) st.lastWriter
    writeHistory :=
      aset st.writeHistory t (tx.writeSet.foldl (fun m p => aset m p.1 ct) []) }

/-- ConcurrencyControl.abortTransaction: drop the node, inbound edges and
both histories. -/
def ccAbortTransaction (st : SimState) (t : String) : SimState :=
  { st with
    graph :=
      (adelete st.graph t).map fun p =>
        (p.1, p.2.filter fun x => if x = t then false else true)
    writeHistory := adelete st.writeHistory t
    readHistory := adelete st.readHistory t }

/-! ## TransactionManager (`TransactionManager.ts`) -/

def begin (st : SimState) (t : String) : SimState × List Line :=
  if (alookup st.txns t).isSome then (st, [.txAlreadyExists t])
  else
    ({ st with
        txns := aset st.txns t
          { status := .Active
            beginTimestamp := st.currentTime
            commitTimestamp := none
            readSet := []
            writeSet := []
            touchedSites := [] }
        graph := registerTransaction st.graph t
        currentTime := st.currentTime + 1 },
      [])

def read (st : SimState) (t : String) (i : Nat) :
    SimState × List Line × Option Int :=
  match alookup st.txns t with
  | none => (st, [.txDoesNotExist t], none)
  | some tx =>
    if tx.status = .Active then
      match alookup tx.writeSet i with
      | some we => (st, [.readFromWriteSet t i we.value], some we.value)
      | none =>
        match selectReadSite st.versionStore st.sites i tx.beginTimestamp with
        | none => (st, [.cannotReadNoSite t i], none)
        | some (s, vts) =>
          match getVersion st.versionStore s i tx.beginTimestamp with
          | none => (st, [.cannotReadNoVersion t i], none)
          | some ver =>
            let st1 :=
              { st with
                txns := updAssoc st.txns t fun tx0 =>
                  { tx0 with
                    readSet := aset tx0.readSet i ⟨s, vts⟩
                    touchedSites := sinsert tx0.touchedSites s } }
            (recordRead st1 t i vts, [.readValue t i ver.value], some ver.value)
    else (st, [.txNotActive t], none)

def write (st : SimState) (t : String) (i : Nat) (v : Int) :
    SimState × List Line :=
  match alookup st.txns t with
  | none => (st, [.txDoesNotExist t])
  | some tx =>
    if tx.status = .Active then
      let targets := selectWriteSites st.versionStore st.sites i
      ({ st with
          txns := updAssoc st.txns t fun tx0 =>
            { tx0 with
              writeSet := aset tx0.writeSet i ⟨v, targets⟩
              touchedSites := targets.foldl sinsert tx0.touchedSites } },
        [])
    else (st, [.txNotActive t])

def abort (st : SimState) (t : String) (r : AbortReason) :
    SimState × List Line :=
  match alookup st.txns t with
  | none => (st, [])
  | some _ =>
    (ccAbortTransaction
      { st with
        txns := updAssoc st.txns t fun tx0 => { tx0 with status := .Aborted } }
      t,
      [.aborts t r])

/-- Install the buffered writes at the target sites still available, enabling
replicated reads at recovering sites as versions land. -/
def installWrites (ws : List (Nat × WriteEntry)) (ct : Nat)
    (acc : Store × SiteMap) : Store × SiteMap :=
  ws.foldl
    (fun acc1 p =>
      let avail := p.2.targetSites.filter fun s => isAvailable acc1.2 s
      avail.foldl
        (fun acc2 s =>
          let store1 := addVersionRun acc2.1 s p.1 ct p.2.value
          let sites1 :=
            if isReplicated p.1 then enableReplicatedRead store1 acc2.2 s p.1
            else acc2.2
          (store1, sites1))
        acc1)
    acc

def commitTxn (st : SimState) (t : String) : SimState × List Line :=
  match alookup st.txns t with
  | none => (st, [])
  | some tx =>
    let ct := st.currentTime
    let st1 :=
      { st with
        txns := updAssoc st.txns t fun tx0 =>
          { tx0 with status := .Committed, commitTimestamp := some ct } }
    let pair := installWrites tx.writeSet ct (st1.versionStore, st1.sites)
    let st2 := { st1 with versionStore := pair.1, sites := pair.2 }
    let st3 := ccCommitTransaction st2 t tx ct
    ({ st3 with currentTime := st3.currentTime + 1 }, [.commits t])

def endTxn (st : SimState) (t : String) : SimState × List Line :=
  match alookup st.txns t with
  | none => (st, [.txDoesNotExist t])
  | some tx =>
    if tx.status = .Active then
      if tx.touchedSites.any fun s => !(isAvailable st.sites s) then
        abort st t .siteFailureAfterAccess
      else if tx.writeSet.any fun p =>
          (p.2.targetSites.filter fun s => isAvailable st.sites s).isEmpty then
        abort st t .noAvailableSiteForWrite
      else
        match checkFirstCommitterWins st.lastWriter tx with
        | some r => abort st t r
        | none =>
          let g :=
            addRWEdges (addWWEdges st.graph st.lastWriter t tx.writeSet)
              st.readHistory t tx.writeSet
          let stg := { st with graph := g }
          if hasCycle g t then abort stg t .serializationCycle
          else commitTxn stg t
    else (st, [.txAlreadyEnded t tx.status])

/-- TransactionManager.handleSiteFailure: abort every active transaction that
touched the failed site, in transaction-table order. -/
def handleSiteFailure (st : SimState) (s : Nat) : SimState × List Line :=
  st.txns.foldl
    (fun acc p =>
      match alookup acc.1.txns p.1 with
      | some tx =>
        if tx.status = .Active ∧ s ∈ tx.touchedSites then
          let r := abort acc.1 p.1 (.siteFailed s)
          (r.1, acc.2 ++ r.2)
        else acc
      | none => acc)
    (st, ([] : List Line))

/-- One entry of the dump() loop for variable `varId`: the printed line, if
the variable counts as changed. -/
def dumpEntry (st : SimState) (varId : Nat) : Option Line :=
  let initialValue : Int := (varId : Int) * 10
  let sitesFor := getSitesForVariable st.versionStore st.sites varId
  if isReplicated varId then
    match sitesFor.head? with
    | some firstSite =>
      match getLatestVersion st.versionStore firstSite varId with
      | some ver =>
        if ver.value = initialValue then none
        else some (.dumpAllSites varId ver.value)
      | none => none
    | none => none
  else
    match sitesFor.head? with
    | some s =>
      match getLatestVersion st.versionStore s varId with
      | some ver =>
        if ver.value = initialValue then none
        else some (.dumpAtSite varId ver.value s)
      | none => none
    | none => none

def dump (st : SimState) : List Line :=
  let changed := ((List.range NUM_VARIABLES).map (· + 1)).filterMap (dumpEntry st)
  changed ++ [if changed.isEmpty then .allInitial else .allOther]

def dumpVariableLines (st : SimState) (i : Nat) : List Line :=
  let sitesFor := getSitesForVariable st.versionStore st.sites i
  if isReplicated i then
    [.dumpVarLine i
      (sitesFor.filterMap fun s =>
        (getLatestVersion st.versionStore s i).map fun ver => (ver.value, s))]
  else
    match sitesFor.head? with
    | some s =>
      match getLatestVersion st.versionStore s i with
      | some ver => [.dumpAtSite i ver.value s]
      | none => []
    | none => []

def dumpSiteLines (st : SimState) (s : Nat) : List Line :=
  let vars := (getAllVariables st.versionStore s).mergeSort fun a b => a.1 ≤ b.1
  vars.map fun p => .dumpSiteVar p.1 p.2.value

/-! ## Driver (`Driver.ts`) -/

inductive Command
  | begin (t : String)
  | endT (t : String)
  | read (t : String) (i : Nat)
  | write (t : String) (i : Nat) (v : Int)
  | fail (s : Nat)
  | recover (s : Nat)
  | dump
  | dumpVariable (i : Nat)
  | dumpSite (s : Nat)
  | reset
deriving DecidableEq, Repr

/-- Fresh simulator state built by the SiteManager constructor: sites 1..10,
site `s` holding every even variable plus the odd variables homed at `s`. -/
def initState : SimState :=
  { versionStore := siteIds.map fun s => (s, initSiteVars (variableIdsForSite s))
    sites := siteIds.map fun s => (s, mkSite)
    txns := []
    currentTime := 1
    lastWriter := []
    graph := []
    writeHistory := []
    readHistory := [] }

def execCmd (st : SimState) : Command → SimState × List Line
  | .begin t => begin st t
  | .endT t => endTxn st t
  | .read t i =>
    let r := read st t i
    (r.1, r.2.1)
  | .write t i v => write st t i v
  | .fail s =>
    let st1 := { st with sites := failSite st.sites s st.currentTime }
    let r := handleSiteFailure st1 s
    ({ r.1 with currentTime := r.1.currentTime + 1 }, r.2)
  | .recover s =>
    ({ st with
        sites := recoverSite st.versionStore st.sites s st.currentTime
        currentTime := st.currentTime + 1 },
      [])
  | .dump => (st, dump st)
  | .dumpVariable i => (st, dumpVariableLines st i)
  | .dumpSite s => (st, dumpSiteLines st s)
  | .reset => (initState, [])

def execCmds (cs : List Command) (st : SimState) : SimState × List Line :=
  match cs with
  | [] => (st, [])
  | c :: rest =>
    let r := execCmd st c
    let r2 := execCmds rest r.1
    (r2.1, r.2 ++ r2.2)

def isDumpCmd : Command → Bool
  | .dump => true
  | .dumpVariable _ => true
  | .dumpSite _ => true
  | _ => false

/-- Driver.runCommands: execute the directives and auto-dump when the input
contained no dump directive. -/
def runCommands (cs : List Command) : List Line :=
  let r := execCmds cs initState
  if cs.any isDumpCmd then r.2 else r.2 ++ dump r.1

/-- States reachable by the driver from a fresh simulator. -/
inductive Reachable : SimState → Prop
  | init : Reachable initState
  | step (c : Command) (st : SimState) : Reachable st → Reachable (execCmd st c).1

/-! ## Derived relations and invariants used by the theorems -/

/-- Edge relation of the serialization graph. -/
def gEdge (g : Graph) (u v : String) : Prop := v ∈ graphSucc g u

/-- The transaction is recorded and has committed. -/
def isCommittedTx (st : SimState) (t : String) : Prop :=
  ∃ tx, alookup st.txns t = some tx ∧ tx.status = .Committed

/-- Serialization-graph edge restricted to committed transactions. -/
def cEdge (st : SimState) (u v : String) : Prop :=
  gEdge st.graph u v ∧ isCommittedTx st u ∧ isCommittedTx st v

/-- DFS invariant: every completed (visited, off-stack) node reaches only
completed nodes. -/
def Closed (g : Graph) (vis stack : List String) : Prop :=
  ∀ u ∈ vis, u ∉ stack → ∀ v, Relation.ReflTransGen (gEdge g) u v →
    v ∈ vis ∧ v ∉ stack

/-- Version list held for site `s`, variable `i`. -/
def storeVers (store : Store) (s i : Nat) : Option (List Version) :=
  match alookup store s with
  | none => none
  | some ss => alookup ss i

/-- Version lists of a store are sorted with all timestamps at most `c`, and
strictly below `c` on the pairs satisfying `P`. -/
def StoreOK (store : Store) (c : Nat) (P : Nat → Nat → Prop) : Prop :=
  ∀ s i vers, storeVers store s i = some vers →
    List.Chain' (fun a b => a.timestamp < b.timestamp) vers ∧
    (∀ ver ∈ vers, ver.timestamp ≤ c) ∧
    (P s i → ∀ ver ∈ vers, ver.timestamp < c)

/-- Master invariant of reachable simulator states. -/
structure Inv (st : SimState) : Prop where
  sitesKeys : st.sites.map Prod.fst = siteIds
  storeKeys : st.versionStore.map Prod.fst = siteIds
  storeVarKeys : ∀ s ss, alookup st.versionStore s = some ss →
    ss.map Prod.fst = variableIdsForSite s
  versSorted : ∀ s i vers, storeVers st.versionStore s i = some vers →
    List.Chain' (fun a b => a.timestamp < b.timestamp) vers ∧
    ∀ ver ∈ vers, ver.timestamp < st.currentTime
  beginLt : ∀ t tx, alookup st.txns t = some tx →
    tx.beginTimestamp < st.currentTime
  commitBounds : ∀ t tx, alookup st.txns t = some tx → tx.status = .Committed →
    ∃ c, tx.commitTimestamp = some c ∧ tx.beginTimestamp < c ∧
      c < st.currentTime
  writeSetNodup : ∀ t tx, alookup st.txns t = some tx →
    (tx.writeSet.map Prod.fst).Nodup
  targetsNodup : ∀ t tx i e, alookup st.txns t = some tx →
    (i, e) ∈ tx.writeSet → e.targetSites.Nodup
  committedLW : ∀ t tx i e c, alookup st.txns t = some tx →
    tx.status = .Committed → (i, e) ∈ tx.writeSet →
    tx.commitTimestamp = some c →
    ∃ w, alookup st.lastWriter i = some w ∧ c ≤ w.commitTime
  fcwCorrect : ∀ a b txA txB i eA eB cA cB,
    alookup st.txns a = some txA → alookup st.txns b = some txB →
    txA.status = .Committed → txB.status = .Committed →
    (i, eA) ∈ txA.writeSet → (i, eB) ∈ txB.writeSet →
    txA.commitTimestamp = some cA → txB.commitTimestamp = some cB →
    txA.beginTimestamp < txB.beginTimestamp → cA < cB →
    cA ≤ txB.beginTimestamp
  committedAcyclic : ∀ t, ¬ Relation.TransGen (cEdge st) t t
  activeRead : ∀ t tx i e, alookup st.txns t = some tx →
    tx.status = .Active → (i, e) ∈ tx.readSet →
    wasContinuouslyUp st.sites e.siteId e.timestamp tx.beginTimestamp = true ∧
      e.siteId ∈ tx.touchedSites
  committedRead : ∀ t tx i e, alookup st.txns t = some tx →
    tx.status = .Committed → (i, e) ∈ tx.readSet →
    wasContinuouslyUp st.sites e.siteId e.timestamp tx.beginTimestamp = true

theorem reachable_execCmds (cs : List Command) (st : SimState)
    (h : Reachable st) : Reachable (execCmds cs st).1 := by
  induction cs generalizing st with
  | nil => simpa [execCmds] using h
  | cons c cs ih => exact ih (execCmd st c).1 (Reachable.step c st h)

/-! ## Association list and set lemmas -/

theorem alookup_aset_self {α β : Type} [DecidableEq α] (l : List (α × β))
    (k : α) (v : β) : alookup (aset l k v) k = some v := by
  induction l with
  | nil => simp [aset, alookup]
  | cons p t ih =>
    by_cases h : p.1 = k
    · simp [aset, h, alookup]
    · simp [aset, h, alookup, ih]

theorem alookup_aset_ne {α β : Type} [DecidableEq α] (l : List (α × β))
    (k k' : α) (v : β) (h : k' ≠ k) :
    alookup (aset l k v) k' = alookup l k' := by
  have hkk : ¬ k = k' := fun hh => h hh.symm
  induction l with
  | nil => simp [aset, alookup, hkk]
  | cons p t ih =>
    by_cases hp : p.1 = k
    · subst hp
      simp [aset, alookup, hkk]
    · by_cases hp' : p.1 = k'
      · simp only [aset, if_neg hp]
        simp [alookup, hp']
      · simp only [aset, if_neg hp]
        simp [alookup, hp', ih]

theorem alookup_updAssoc_self {α β : Type} [DecidableEq α] (l : List (α × β))
    (k : α) (f : β → β) :
    alookup (updAssoc l k f) k = (alookup l k).map f := by
  induction l with
  | nil => simp [updAssoc, alookup]
  | cons p t ih =>
    by_cases h : p.1 = k
    · simp only [updAssoc, List.map_cons, if_pos h]
      simp [alookup, h]
    · simp only [updAssoc, List.map_cons, if_neg h]
      simp only [alookup, if_neg h]
      simpa [updAssoc] using ih

theorem alookup_updAssoc_ne {α β : Type} [DecidableEq α] (l : List (α × β))
    (k k' : α) (f : β → β) (h : k' ≠ k) :
    alookup (updAssoc l k f) k' = alookup l k' := by
  have hkk : ¬ k = k' := fun hh => h hh.symm
  induction l with
  | nil => simp [updAssoc, alookup]
  | cons p t ih =>
    by_cases hp : p.1 = k
    · simp only [updAssoc, List.map_cons, if_pos hp]
      simp only [alookup, if_neg (hp ▸ hkk : ¬ p.1 = k'), if_neg hkk]
      simpa [updAssoc] using ih
    · simp only [updAssoc, List.map_cons, if_neg hp]
      by_cases hp' : p.1 = k'
      · simp [alookup, hp']
      · simp only [alookup, if_neg hp']
        simpa [updAssoc] using ih

theorem updAssoc_keys {α β : Type} [DecidableEq α] (l : List (α × β))
    (k : α) (f : β → β) : (updAssoc l k f).map Prod.fst = l.map Prod.fst := by
  induction l with
  | nil => simp [updAssoc]
  | cons p t ih =>
    by_cases h : p.1 = k
    · simp only [updAssoc, List.map_cons] at ih ⊢
      simp [h, ih]
    · simp only [updAssoc, List.map_cons] at ih ⊢
      simp [h, ih]

theorem aset_keys_mem {α β : Type} [DecidableEq α] (l : List (α × β))
    (k : α) (v : β) (h : k ∈ l.map Prod.fst) :
    (aset l k v).map Prod.fst = l.map Prod.fst := by
  induction l with
  | nil => simp at h
  | cons p t ih =>
    by_cases hp : p.1 = k
    · simp [aset, hp]
    · simp only [List.map_cons, List.mem_cons] at h
      rcases h with h | h

      · exact absurd h.symm hp
      · simp [aset, hp, ih h]

theorem aset_keys_not_mem {α β : Type} [DecidableEq α] (l : List (α × β))
    (k : α) (v : β) (h : k ∉ l.map Prod.fst) :
    (aset l k v).map Prod.fst = l.map Prod.fst ++ [k] := by
  induction l with
  | nil => simp [aset]
  | cons p t ih =>
    simp only [List.map_cons, List.mem_cons] at h
    push_neg at h
    have h1 : ¬ p.1 = k := fun hh => h.1 hh.symm
    simp [aset, h1, ih h.2]

theorem aset_keys_nodup {α β : Type} [DecidableEq α] (l : List (α × β))
    (k : α) (v : β) (h : (l.map Prod.fst).Nodup) :
    ((aset l k v).map Prod.fst).Nodup := by
  by_cases hm : k ∈ l.map Prod.fst
  · rw [aset_keys_mem l k v hm]; exact h
  · rw [aset_keys_not_mem l k v hm]
    rw [List.nodup_append]
    refine ⟨h, List.nodup_singleton k, ?_⟩
    intro a ha hak
    simp only [List.mem_singleton] at hak
    subst hak
    exact hm ha

theorem mem_aset {α β : Type} [DecidableEq α] (l : List (α × β)) (k : α)
    (v : β) (p : α × β) (h : p ∈ aset l k v) : p = (k, v) ∨ p ∈ l := by
  induction l with
  | nil => simpa [aset] using h
  | cons q t ih =>
    by_cases hq : q.1 = k
    · simp only [aset, if_pos hq, List.mem_cons] at h
      rcases h with h | h
      · exact Or.inl h
      · exact Or.inr (List.mem_cons_of_mem _ h)
    · simp only [aset, if_neg hq, List.mem_cons] at h
      rcases h with h | h
      · exact Or.inr (by simp [h])
      · rcases ih h with h1 | h1
        · exact Or.inl h1
        · exact Or.inr (List.mem_cons_of_mem _ h1)

theorem alookup_mem {α β : Type} [DecidableEq α] (l : List (α × β)) (k : α)
    (v : β) (h : alookup l k = some v) : (k, v) ∈ l := by
  induction l with
  | nil => simp [alookup] at h
  | cons p t ih =>
    obtain ⟨a, b⟩ := p
    by_cases hp : a = k
    · subst hp
      simp only [alookup, if_pos rfl] at h
      injection h with h
      subst h
      exact List.mem_cons_self _ _
    · simp only [alookup, if_neg hp] at h
      exact List.mem_cons_of_mem _ (ih h)

theorem alookup_isSome_iff {α β : Type} [DecidableEq α] (l : List (α × β))
    (k : α) : (alookup l k).isSome = true ↔ k ∈ l.map Prod.fst := by
  induction l with
  | nil => simp [alookup]
  | cons p t ih =>
    by_cases hp : p.1 = k
    · simp [alookup, hp]
    · have h1 : ¬ k = p.1 := fun hh => hp hh.symm
      simp [alookup, hp, ih, h1]

theorem alookup_adelete_ne {α β : Type} [DecidableEq α] (l : List (α × β))
    (k k' : α) (h : k' ≠ k) : alookup (adelete l k) k' = alookup l k' := by
  induction l with
  | nil => simp [adelete, alookup]
  | cons p t ih =>
    by_cases hp : p.1 = k
    · have hne : ¬ p.1 = k' := fun hh => h (hh ▸ hp ▸ rfl)
      simp only [adelete, List.filter_cons, if_pos hp, if_false]
      simp only [alookup, if_neg hne]
      simpa [adelete] using ih
    · simp only [adelete, List.filter_cons, if_neg hp, if_true]
      by_cases hp' : p.1 = k'
      · simp [alookup, hp']
      · simp only [alookup, if_neg hp']
        simpa [adelete] using ih

theorem alookup_adelete_self {α β : Type} [DecidableEq α] (l : List (α × β))
    (k : α) : alookup (adelete l k) k = none := by
  induction l with
  | nil => simp [adelete, alookup]
  | cons p t ih =>
    by_cases hp : p.1 = k
    · simp only [adelete, List.filter_cons, if_pos hp, if_false]
      simpa [adelete] using ih
    · simp only [adelete, List.filter_cons, if_neg hp, if_true]
      simp only [alookup, if_neg hp]
      simpa [adelete] using ih

theorem mem_sinsert_self {α : Type} [DecidableEq α] (l : List α) (a : α) :
    a ∈ sinsert l a := by
  unfold sinsert
  by_cases h : a ∈ l <;> simp [h]

theorem mem_sinsert_of_mem {α : Type} [DecidableEq α] (l : List α) (a b : α)
    (h : b ∈ l) : b ∈ sinsert l a := by
  unfold sinsert
  by_cases hm : a ∈ l <;> simp [hm, h]

theorem mem_of_mem_sinsert {α : Type} [DecidableEq α] (l : List α) (a b : α)
    (h : b ∈ sinsert l a) : b ∈ l ∨ b = a := by
  unfold sinsert at h
  by_cases hm : a ∈ l
  · simp [hm] at h; exact Or.inl h
  · simp [hm] at h; exact h

theorem mem_foldl_sinsert_of_mem {α : Type} [DecidableEq α] (ts : List α)
    (l : List α) (b : α) (h : b ∈ l) : b ∈ ts.foldl sinsert l := by
  induction ts generalizing l with
  | nil => simpa using h
  | cons t ts ih => exact ih _ (mem_sinsert_of_mem _ _ _ h)

/-! ## Claim C1

Spec scenario S2 claims that on `begin(T1) R(T1,x2) fail(2) end(T1)` the read
of replicated x2 is served by site 2 and T1 is aborted by the failure of site
2.  On the code the read-site loop runs in ascending site-id order, so the
read is served by site 1; T1 never touches site 2 and commits. -/

/-- Claim C1, counterexample: on `begin(T1) R(T1,x2) fail(2) end(T1)` the
program never prints `T1 aborts (site 2 failed)`, contradicting the claimed
abort of T1 while processing fail(2). -/
theorem C1_counterexample :
    Line.aborts "T1" (.siteFailed 2) ∉
      runCommands [.begin "T1", .read "T1" 2, .fail 2, .endT "T1"] := by
  decide

/-- Claim C1 as amended: on `begin(T1) R(T1,x2) fail(2) end(T1)` the read of
replicated x2 is served by site 1 (the first eligible site in ascending
order), so fail(2) aborts nothing and end(T1) commits; the full output is the
read line, the commit line and the implicit dump summary. -/
theorem C1_amended :
    runCommands [.begin "T1", .read "T1" 2, .fail 2, .endT "T1"] =
      [.readValue "T1" 2 20, .commits "T1", .allInitial] ∧
    selectReadSite initState.versionStore initState.sites 2 1 = some (1, 0) := by
  constructor
  · decide
  · decide

/-! ## Claim C2

The spec says appending a version with `ts` less than or equal to the previous
timestamp is a programmer error failing with InvalidVersion.
`VersionStore.addVersion` performs no timestamp comparison at all: it errors
only when the site or the variable is missing, and otherwise appends
unconditionally. -/

/-- Claim C2, counterexample: appending a version whose timestamp 0 is equal
to (hence not strictly greater than) the previous timestamp 0 succeeds and
silently stores the out-of-order version, instead of failing. -/
theorem C2_counterexample :
    addVersion [(1, [(2, [⟨0, 20⟩])])] 1 2 0 999 =
      .ok [(1, [(2, [⟨0, 20⟩, ⟨0, 999⟩])])] := rfl

/-- Claim C2 as amended: addVersion checks only its site/variable existence
precondition (failing with a diagnostic error value otherwise); it performs
no timestamp-ordering check, so for any timestamp whatsoever — including one
less than or equal to the previous version's — it succeeds and appends. -/
theorem C2_amended (store : Store) (s i ts : Nat) (v : Int)
    (h : hasVariable store s i = true) :
    addVersion store s i ts v =
      .ok (updAssoc store s fun ss0 =>
        updAssoc ss0 i fun vers => vers ++ [⟨ts, v⟩]) := by
  cases hs : alookup store s with
  | none => simp [hasVariable, hs] at h
  | some ss =>
    cases hi : alookup ss i with
    | none => simp [hasVariable, hs, hi] at h
    | some vers => simp [addVersion, hs, hi]

/-- Witness for C2_amended at a concrete out-of-order input. -/
theorem C2_amended_witness :
    hasVariable [(1, [(2, [⟨5, 20⟩])])] 1 2 = true ∧
    addVersion [(1, [(2, [⟨5, 20⟩])])] 1 2 3 7 =
      .ok (updAssoc [(1, [(2, [⟨5, 20⟩])])] 1 fun ss0 =>
        updAssoc ss0 2 fun vers => vers ++ [⟨3, 7⟩]) :=
  ⟨by decide, C2_amended [(1, [(2, [⟨5, 20⟩])])] 1 2 3 7 (by decide)⟩

/-! ## Claim C3

Spec scenario S5 claims that on `fail(2) begin(T1) R(T1,x1) end(T1)` the read
prints a cannot-read line and T1 commits with an empty touched-site set.  On
the code x1's home site is `1 + ((1−1) mod 10) = 1`, which is up, so the read
succeeds with value 10 and T1 commits having touched site 1. -/

/-- Claim C3, counterexample: on `fail(2) begin(T1) R(T1,x1) end(T1)` the
program never prints `T1: R(x1) -> cannot read (no eligible site)`. -/
theorem C3_counterexample :
    Line.cannotReadNoSite "T1" 1 ∉
      runCommands [.fail 2, .begin "T1", .read "T1" 1, .endT "T1"] := by
  decide

/-- Claim C3 as amended: x1 is homed at site 1, which fail(2) does not touch,
so the read prints `T1: R(x1) -> 10` and T1 then commits (having touched
site 1); the full output is the read line, the commit line and the implicit
dump summary. -/
theorem C3_amended :
    runCommands [.fail 2, .begin "T1", .read "T1" 1, .endT "T1"] =
      [.readValue "T1" 1 10, .commits "T1", .allInitial] ∧
    getSiteForVariable 1 = 1 := by
  constructor
  · decide
  · decide

/-! ## Claim C8

A read of a variable already in the transaction's own write set returns the
buffered value, prints the from-write-set line, and leaves the entire
simulator state — in particular read_set, touched_sites and the concurrency
control read history — unchanged. -/

/-- Claim C8: when active transaction `t` has `i` in its write set, read
returns the buffered value with the from-write-set line and the state is
unchanged (so read_set, touched_sites and the read history are untouched and
no WR edge is added). -/
theorem C8_read_from_write_set (st : SimState) (t : String) (i : Nat)
    (tx : Transaction) (we : WriteEntry)
    (htx : alookup st.txns t = some tx)
    (hact : tx.status = .Active)
    (hws : alookup tx.writeSet i = some we) :
    read st t i = (st, [.readFromWriteSet t i we.value], some we.value) := by
  unfold read
  rw [htx]
  simp [hact, hws]

/-- Witness for C8 after `begin(T1) W(T1,x1,5)`: the re-read returns the
buffered 5 and leaves the state fixed. -/
theorem C8_witness :
    read (execCmds [.begin "T1", .write "T1" 1 5] initState).1 "T1" 1 =
      ((execCmds [.begin "T1", .write "T1" 1 5] initState).1,
        [.readFromWriteSet "T1" 1 5], some 5) :=
  C8_read_from_write_set _ "T1" 1
    { status := .Active
      beginTimestamp := 1
      commitTimestamp := none
      readSet := []
      writeSet := [(1, ⟨5, [1]⟩)]
      touchedSites := [1] }
    ⟨5, [1]⟩ (by decide) rfl (by decide)

/-! ## Router extraction lemmas -/

theorem tryReadSite_spec (store : Store) (sites : SiteMap) (s0 i b s vts : Nat)
    (h : tryReadSite store sites s0 i b = some (s, vts)) :
    s0 = s ∧ canReadFromSite store sites s i = true ∧
    (∃ ver, getVersion store s i b = some ver ∧ ver.timestamp = vts) ∧
    wasContinuouslyUp sites s vts b = true := by
  unfold tryReadSite at h
  cases hc : canReadFromSite store sites s0 i with
  | false => simp [hc] at h
  | true =>
    cases hv : getVersion store s0 i b with
    | none => simp [hc, hv] at h
    | some ver =>
      cases hw : wasContinuouslyUp sites s0 ver.timestamp b with
      | false => simp [hc, hv, hw] at h
      | true =>
        simp only [hc, hv, hw, if_true] at h
        simp only [Option.some.injEq, Prod.mk.injEq] at h
        obtain ⟨rfl, rfl⟩ := h
        exact ⟨rfl, hc, ⟨ver, hv, rfl⟩, hw⟩

theorem selectReadSite_spec (store : Store) (sites : SiteMap) (i b s vts : Nat)
    (h : selectReadSite store sites i b = some (s, vts)) :
    canReadFromSite store sites s i = true ∧
    (∃ ver, getVersion store s i b = some ver ∧ ver.timestamp = vts) ∧
    wasContinuouslyUp sites s vts b = true := by
  unfold selectReadSite at h
  cases hr : isReplicated i with
  | true =>
    rw [hr] at h
    simp only [if_true] at h
    obtain ⟨a, _, hfa⟩ := List.exists_of_findSome?_eq_some h
    obtain ⟨rfl, h1, h2, h3⟩ := tryReadSite_spec store sites a i b s vts hfa
    exact ⟨h1, h2, h3⟩
  | false =>
    rw [hr] at h
    simp only [Bool.false_eq_true, if_false] at h
    obtain ⟨rfl, h1, h2, h3⟩ :=
      tryReadSite_spec store sites (getSiteForVariable i) i b s vts h
    exact ⟨h1, h2, h3⟩

/-! ## Claim C9

Inside read, the version re-fetched after a successful selectReadSite always
exists and carries the timestamp selectReadSite reported, so the
`cannot read (no version)` branch is dead code. -/

/-- Claim C9: whenever selectReadSite succeeds with (s, vts), re-fetching
getVersion at the same arguments yields a version with timestamp vts, and
consequently read never emits the `cannot read (no version)` line, in any
state. -/
theorem C9_no_version_unreachable :
    (∀ (store : Store) (sites : SiteMap) (i b s vts : Nat),
        selectReadSite store sites i b = some (s, vts) →
        ∃ ver, getVersion store s i b = some ver ∧ ver.timestamp = vts) ∧
    (∀ (st : SimState) (t : String) (i : Nat),
        Line.cannotReadNoVersion t i ∉ (read st t i).2.1) := by
  have hsel : ∀ (store : Store) (sites : SiteMap) (i b s vts : Nat),
      selectReadSite store sites i b = some (s, vts) →
      ∃ ver, getVersion store s i b = some ver ∧ ver.timestamp = vts :=
    fun store sites i b s vts h => (selectReadSite_spec store sites i b s vts h).2.1
  refine ⟨hsel, ?_⟩
  intro st t i
  cases htx : alookup st.txns t with
  | none => simp [read, htx]
  | some tx =>
    by_cases hact : tx.status = TransactionStatus.Active
    · cases hws : alookup tx.writeSet i with
      | some we => simp [read, htx, hact, hws]
      | none =>
        cases hsr : selectReadSite st.versionStore st.sites i tx.beginTimestamp with
        | none => simp [read, htx, hact, hws, hsr]
        | some p =>
          obtain ⟨s, vts⟩ := p
          obtain ⟨ver, hv, hvt⟩ := hsel _ _ _ _ _ _ hsr
          simp [read, htx, hact, hws, hsr, hv]
    · simp [read, htx, hact]

/-- Witness for C9 on a fresh simulator: selectReadSite for x2 at timestamp 1
returns (1, 0) and the re-fetch finds the seed version; read never prints the
no-version line there. -/
theorem C9_witness :
    (∃ ver, getVersion initState.versionStore 1 2 1 = some ver ∧
        ver.timestamp = 0) ∧
    Line.cannotReadNoVersion "T1" 2 ∉ (read initState "T1" 2).2.1 :=
  ⟨C9_no_version_unreachable.1 initState.versionStore initState.sites 2 1 1 0
      (by decide),
    C9_no_version_unreachable.2 initState "T1" 2⟩

/-! ## First-committer-wins characterization -/

theorem checkFCW_none_iff (lw : List (Nat × LastWriterInfo)) (tx : Transaction) :
    checkFirstCommitterWins lw tx = none ↔
      ∀ p ∈ tx.writeSet, ∀ w, alookup lw p.1 = some w →
        w.commitTime ≤ tx.beginTimestamp := by
  unfold checkFirstCommitterWins
  rw [List.findSome?_eq_none_iff]
  constructor
  · intro h p hp w hw
    have h1 := h p hp
    rw [hw] at h1
    by_cases hlt : tx.beginTimestamp < w.commitTime
    · simp [hlt] at h1
    · omega
  · intro h p hp
    cases hw : alookup lw p.1 with
    | none => simp
    | some w =>
      have h1 := h p hp w hw
      have hnlt : ¬ tx.beginTimestamp < w.commitTime := by omega
      simp [hnlt]

theorem checkFCW_some_spec (lw : List (Nat × LastWriterInfo)) (tx : Transaction)
    (r : AbortReason) (h : checkFirstCommitterWins lw tx = some r) :
    ∃ i e w, (i, e) ∈ tx.writeSet ∧ alookup lw i = some w ∧
      tx.beginTimestamp < w.commitTime ∧
      r = .fcwConflict i w.transactionId := by
  unfold checkFirstCommitterWins at h
  obtain ⟨p, hp, hfp⟩ := List.exists_of_findSome?_eq_some h
  cases hw : alookup lw p.1 with
  | none => simp [hw] at hfp
  | some w =>
    by_cases hlt : tx.beginTimestamp < w.commitTime
    · simp only [hw, if_pos hlt, Option.some.injEq] at hfp
      exact ⟨p.1, p.2, w, by simpa using hp, hw, hlt, hfp.symm⟩
    · simp [hw, hlt] at hfp

/-! ## Uptime-interval preservation lemmas -/

theorem getLast?_decomp {α : Type} (l : List α) (x : α)
    (h : l.getLast? = some x) : l = l.dropLast ++ [x] := by
  induction l with
  | nil => simp at h
  | cons a t ih =>
    cases t with
    | nil =>
      simp only [List.getLast?_singleton, Option.some.injEq] at h
      subst h
      rfl
    | cons b t2 =>
      rw [List.getLast?_cons_cons] at h
      have h2 := ih h
      show a :: (b :: t2) = (a :: (b :: t2)).dropLast ++ [x]
      rw [show (a :: (b :: t2)).dropLast = a :: (b :: t2).dropLast from rfl]
      rw [List.cons_append]
      rw [← h2]

theorem wasContinuouslyUp_iff (sites : SiteMap) (s a b : Nat) :
    wasContinuouslyUp sites s a b = true ↔
    ∃ site, alookup sites s = some site ∧ ∃ iv ∈ site.uptimeIntervals,
      iv.start ≤ a ∧ (iv.stop = none ∨ ∃ e, iv.stop = some e ∧ b ≤ e) := by
  unfold wasContinuouslyUp
  cases hs : alookup sites s with
  | none => simp
  | some site =>
    simp only [List.any_eq_true, Option.some.injEq]
    constructor
    · rintro ⟨iv, hiv, hcond⟩
      refine ⟨site, rfl, iv, hiv, ?_⟩
      by_cases h1 : iv.start ≤ a
      · refine ⟨h1, ?_⟩
        rw [if_pos h1] at hcond
        cases hstop : iv.stop with
        | none => exact Or.inl rfl
        | some e =>
          simp only [hstop] at hcond
          by_cases h2 : b ≤ e
          · exact Or.inr ⟨e, rfl, h2⟩
          · rw [if_neg h2] at hcond; simp at hcond
      · rw [if_neg h1] at hcond; simp at hcond
    · rintro ⟨site', hsite, iv, hiv, h1, h2⟩
      subst hsite
      refine ⟨iv, hiv, ?_⟩
      rw [if_pos h1]
      rcases h2 with h2 | ⟨e, he, hbe⟩
      · rw [h2]
      · rw [he]
        simp [hbe]

theorem wasContinuouslyUp_congr (sites1 sites2 : SiteMap) (s a b : Nat)
    (h : (alookup sites2 s).map Site.uptimeIntervals =
        (alookup sites1 s).map Site.uptimeIntervals) :
    wasContinuouslyUp sites2 s a b = wasContinuouslyUp sites1 s a b := by
  unfold wasContinuouslyUp
  cases h1 : alookup sites1 s with
  | none =>
    rw [h1] at h
    simp only [Option.map_none'] at h
    rw [Option.map_eq_none'] at h
    rw [h]
  | some site1 =>
    rw [h1] at h
    cases h2 : alookup sites2 s with
    | none => rw [h2] at h; simp at h
    | some site2 =>
      rw [h2] at h
      simp only [Option.map_some', Option.some.injEq] at h
      dsimp only
      rw [h]

theorem enableRR_uptime (store : Store) (sites : SiteMap) (s0 i s : Nat) :
    (alookup (enableReplicatedRead store sites s0 i) s).map Site.uptimeIntervals =
    (alookup sites s).map Site.uptimeIntervals := by
  unfold enableReplicatedRead
  by_cases hs : s = s0
  · subst hs
    rw [alookup_updAssoc_self]
    cases alookup sites s with
    | none => rfl
    | some site =>
      simp only [Option.map_some', Option.some.injEq]
      split <;> rfl
  · rw [alookup_updAssoc_ne _ _ _ _ hs]

theorem wasContinuouslyUp_enableRR (store : Store) (sites : SiteMap)
    (s0 i s a b : Nat) :
    wasContinuouslyUp (enableReplicatedRead store sites s0 i) s a b =
    wasContinuouslyUp sites s a b :=
  wasContinuouslyUp_congr sites _ s a b (enableRR_uptime store sites s0 i s)

theorem wasContinuouslyUp_failSite (sites : SiteMap) (s0 tf s a b : Nat)
    (hb : b ≤ tf) (h : wasContinuouslyUp sites s a b = true) :
    wasContinuouslyUp (failSite sites s0 tf) s a b = true := by
  rw [wasContinuouslyUp_iff] at h ⊢
  obtain ⟨site, hsite, iv, hiv, h1, h2⟩ := h
  by_cases hs : s = s0
  · subst hs
    have hlk : alookup (failSite sites s tf) s = some (
        if site.state = SiteState.Failed then site
        else
          { site with
            state := .Failed
            uptimeIntervals :=
              match site.uptimeIntervals.getLast? with
              | some last =>
                if last.stop = none then
                  site.uptimeIntervals.dropLast ++ [{ last with stop := some tf }]
                else site.uptimeIntervals
              | none => site.uptimeIntervals }) := by
      unfold failSite
      rw [alookup_updAssoc_self, hsite]
      rfl
    refine ⟨_, hlk, ?_⟩
    by_cases hfld : site.state = SiteState.Failed
    · rw [if_pos hfld]
      exact ⟨iv, hiv, h1, h2⟩
    · rw [if_neg hfld]
      cases hlast : site.uptimeIntervals.getLast? with
      | none =>
        dsimp only
        exact ⟨iv, hiv, h1, h2⟩
      | some last =>
        dsimp only
        by_cases hstop : last.stop = none
        · rw [if_pos hstop]
          have hdec := getLast?_decomp _ _ hlast
          rw [hdec] at hiv
          rcases List.mem_append.1 hiv with hiv1 | hiv1
          · exact ⟨iv, List.mem_append.2 (Or.inl hiv1), h1, h2⟩
          · simp only [List.mem_singleton] at hiv1
            subst hiv1
            refine ⟨{ iv with stop := some tf },
              List.mem_append.2 (Or.inr (by simp)), h1, ?_⟩
            exact Or.inr ⟨tf, rfl, hb⟩
        · rw [if_neg hstop]
          exact ⟨iv, hiv, h1, h2⟩
  · refine ⟨site, ?_, iv, hiv, h1, h2⟩
    unfold failSite
    rw [alookup_updAssoc_ne _ _ _ _ hs]
    exact hsite

theorem wasContinuouslyUp_recoverSite (store : Store) (sites : SiteMap)
    (s0 tr s a b : Nat) (h : wasContinuouslyUp sites s a b = true) :
    wasContinuouslyUp (recoverSite store sites s0 tr) s a b = true := by
  rw [wasContinuouslyUp_iff] at h ⊢
  obtain ⟨site, hsite, iv, hiv, h1, h2⟩ := h
  by_cases hs : s = s0
  · subst hs
    have hlk : alookup (recoverSite store sites s tr) s = some (
        if site.state = SiteState.Failed then
          { site with
            state := .Recovering
            uptimeIntervals := site.uptimeIntervals ++ [⟨tr, none⟩]
            replicatedReadEnabled :=
              evenVarIds.foldl
                (fun m i => if hasVariable store s i then aset m i false else m)
                site.replicatedReadEnabled }
        else site) := by
      unfold recoverSite
      rw [alookup_updAssoc_self, hsite]
      rfl
    refine ⟨_, hlk, ?_⟩
    by_cases hfld : site.state = SiteState.Failed
    · rw [if_pos hfld]
      exact ⟨iv, List.mem_append.2 (Or.inl hiv), h1, h2⟩
    · rw [if_neg hfld]
      exact ⟨iv, hiv, h1, h2⟩
  · refine ⟨site, ?_, iv, hiv, h1, h2⟩
    unfold recoverSite
    rw [alookup_updAssoc_ne _ _ _ _ hs]
    exact hsite

/-! ## Serialization-graph shape lemmas -/

theorem graphSucc_registerTransaction (g : Graph) (t n : String) :
    graphSucc (registerTransaction g t) n = graphSucc g n := by
  unfold registerTransaction
  by_cases h : (alookup g t).isSome
  · rw [if_pos h]
  · rw [if_neg h]
    unfold graphSucc
    by_cases hn : n = t
    · subst hn
      rw [alookup_aset_self]
      cases ha : alookup g n with
      | none => rfl
      | some es => rw [ha] at h; simp at h
    · rw [alookup_aset_ne _ _ _ _ hn]

theorem alookup_mapval {α β γ : Type} [DecidableEq α] (l : List (α × β))
    (f : β → γ) (k : α) :
    alookup (l.map fun p => (p.1, f p.2)) k = (alookup l k).map f := by
  induction l with
  | nil => simp [alookup]
  | cons p t ih =>
    by_cases hp : p.1 = k
    · simp [alookup, hp]
    · simp only [List.map_cons, alookup, if_neg hp]
      exact ih

theorem gEdge_addEdge (g : Graph) (a b u v : String)
    (h : gEdge (addEdge g a b) u v) : gEdge g u v ∨ (u = a ∧ v = b) := by
  unfold addEdge at h
  unfold gEdge at h ⊢
  have hsucc : ∀ n, graphSucc (registerTransaction (registerTransaction g a) b) n
      = graphSucc g n := by
    intro n
    rw [graphSucc_registerTransaction, graphSucc_registerTransaction]
  by_cases hu : u = a
  · subst hu
    unfold graphSucc at h
    rw [alookup_updAssoc_self] at h
    cases hg : alookup (registerTransaction (registerTransaction g u) b) u with
    | none => rw [hg] at h; simp at h
    | some es =>
      rw [hg] at h
      simp only [Option.map_some', Option.getD_some] at h
      rcases mem_of_mem_sinsert _ _ _ h with h1 | h1
      · left
        have he : es = graphSucc (registerTransaction (registerTransaction g u) b) u := by
          unfold graphSucc
          rw [hg]
          rfl
        rw [← hsucc u]
        rw [← he]
        exact h1
      · exact Or.inr ⟨rfl, h1⟩
  · left
    unfold graphSucc at h
    rw [alookup_updAssoc_ne _ _ _ _ hu] at h
    rw [← hsucc u]
    unfold graphSucc
    exact h

theorem gEdge_addWWEdges (g : Graph) (lw : List (Nat × LastWriterInfo))
    (t : String) (ws : List (Nat × WriteEntry)) (u v : String)
    (h : gEdge (addWWEdges g lw t ws) u v) : gEdge g u v ∨ v = t := by
  induction ws generalizing g with
  | nil => exact Or.inl h
  | cons p ps ih =>
    rw [show addWWEdges g lw t (p :: ps) =
        addWWEdges (match alookup lw p.1 with
          | some w => if w.transactionId = t then g else addEdge g w.transactionId t
          | none => g) lw t ps from rfl] at h
    rcases ih _ h with h1 | h1
    · cases hlw : alookup lw p.1 with
      | none => simp only [hlw] at h1; exact Or.inl h1
      | some w =>
        simp only [hlw] at h1
        by_cases hw : w.transactionId = t
        · rw [if_pos hw] at h1; exact Or.inl h1
        · rw [if_neg hw] at h1
          rcases gEdge_addEdge _ _ _ _ _ h1 with h2 | h2
          · exact Or.inl h2
          · exact Or.inr h2.2
    · exact Or.inr h1

theorem gEdge_addRWEdges_inner (g : Graph) (rh : List (String × List Nat))
    (t : String) (i : Nat) (u v : String)
    (h : gEdge (rh.foldl (fun g2 q =>
        if q.1 ≠ t ∧ i ∈ q.2 then addEdge g2 q.1 t else g2) g) u v) :
    gEdge g u v ∨ v = t := by
  induction rh generalizing g with
  | nil => exact Or.inl h
  | cons q qs ih =>
    rw [List.foldl_cons] at h
    rcases ih _ h with h1 | h1
    · by_cases hq : q.1 ≠ t ∧ i ∈ q.2
      · rw [if_pos hq] at h1
        rcases gEdge_addEdge _ _ _ _ _ h1 with h2 | h2
        · exact Or.inl h2
        · exact Or.inr h2.2
      · rw [if_neg hq] at h1; exact Or.inl h1
    · exact Or.inr h1

theorem gEdge_addRWEdges (g : Graph) (rh : List (String × List Nat))
    (t : String) (ws : List (Nat × WriteEntry)) (u v : String)
    (h : gEdge (addRWEdges g rh t ws) u v) : gEdge g u v ∨ v = t := by
  induction ws generalizing g with
  | nil => exact Or.inl h
  | cons p ps ih =>
    rw [show addRWEdges g rh t (p :: ps) =
        addRWEdges (rh.foldl (fun g2 q =>
          if q.1 ≠ t ∧ p.1 ∈ q.2 then addEdge g2 q.1 t else g2) g) rh t ps
        from rfl] at h
    rcases ih _ h with h1 | h1
    · rcases gEdge_addRWEdges_inner _ _ _ _ _ _ h1 with h2 | h2
      · exact Or.inl h2
      · exact Or.inr h2
    · exact Or.inr h1

theorem gEdge_ccAbort (st : SimState) (t u v : String)
    (h : gEdge (ccAbortTransaction st t).graph u v) :
    gEdge st.graph u v ∧ v ≠ t ∧ u ≠ t := by
  unfold ccAbortTransaction at h
  unfold gEdge graphSucc at h ⊢
  dsimp only at h
  rw [alookup_mapval] at h
  by_cases hu : u = t
  · subst hu
    rw [alookup_adelete_self] at h
    simp at h
  · rw [alookup_adelete_ne _ _ _ hu] at h
    cases hg : alookup st.graph u with
    | none => rw [hg] at h; simp at h
    | some es =>
      rw [hg] at h
      simp only [Option.map_some', Option.getD_some] at h
      have h2 := List.mem_filter.1 h
      refine ⟨h2.1, ?_, hu⟩
      have h3 := h2.2
      by_cases hv : v = t
      · rw [if_pos hv] at h3; simp at h3
      · exact hv

/-! ## DFS soundness

When the cycle detector returns false, no cycle through the start node
exists.  The invariant `Closed g vis stack` states that every completed node
reaches only completed nodes; it is threaded through the visit recursion. -/

theorem closed_nil (g : Graph) (stack : List String) : Closed g [] stack :=
  fun u hu => absurd hu (List.not_mem_nil u)

theorem closed_push (g : Graph) (vis stack : List String) (n : String)
    (hn : n ∉ vis) (hcl : Closed g vis stack) :
    Closed g (n :: vis) (n :: stack) := by
  intro u hu huS v hreach
  rcases List.mem_cons.1 hu with hu1 | hu1
  · subst hu1
    exact absurd (List.mem_cons_self _ _) huS
  · have huS2 : u ∉ stack := fun hh => huS (List.mem_cons_of_mem _ hh)
    obtain ⟨hv1, hv2⟩ := hcl u hu1 huS2 v hreach
    refine ⟨List.mem_cons_of_mem _ hv1, ?_⟩
    intro hh
    rcases List.mem_cons.1 hh with hh1 | hh1
    · subst hh1
      exact hn hv1
    · exact hv2 hh1

theorem closed_pop (g : Graph) (vis : List String) (x : String)
    (S : List String) (hx : x ∈ vis)
    (hsucc : ∀ m ∈ graphSucc g x, m ∈ vis ∧ m ∉ x :: S)
    (hcl : Closed g vis (x :: S)) : Closed g vis S := by
  intro u hu huS v hreach
  by_cases hux : u = x
  · subst hux
    rcases Relation.ReflTransGen.cases_head hreach with heq | ⟨m, hm, hrest⟩
    · subst heq
      exact ⟨hu, huS⟩
    · obtain ⟨hmv, hmS⟩ := hsucc m hm
      obtain ⟨hv1, hv2⟩ := hcl m hmv hmS v hrest
      exact ⟨hv1, fun hvS => hv2 (List.mem_cons_of_mem _ hvS)⟩
  · have huS' : u ∉ x :: S := by
      intro hh
      rcases List.mem_cons.1 hh with hh1 | hh1
      · exact hux hh1
      · exact huS hh1
    obtain ⟨hv1, hv2⟩ := hcl u hu huS' v hreach
    exact ⟨hv1, fun hvS => hv2 (List.mem_cons_of_mem _ hvS)⟩

theorem dfsFold_true (g : Graph) (fuel : Nat) (stack : List String)
    (n : String) (es : List String) (vis : List String) :
    es.foldl
      (fun acc m =>
        match acc with
        | (true, vis) => (true, vis)
        | (false, vis) =>
          if m ∈ vis then
            if m ∈ n :: stack then (true, vis) else (false, vis)
          else dfsVisit g fuel (n :: stack) m vis)
      (true, vis) = (true, vis) := by
  induction es with
  | nil => rfl
  | cons m rest ih =>
    rw [List.foldl_cons]
    exact ih

theorem dfs_sound (g : Graph) : ∀ (fuel : Nat) (stack : List String)
    (n : String) (vis vis2 : List String),
    stack ⊆ vis → n ∉ vis → n ∉ stack → Closed g vis stack →
    dfsVisit g fuel stack n vis = (false, vis2) →
    vis ⊆ vis2 ∧ n ∈ vis2 ∧ Closed g vis2 (n :: stack) ∧
      ∀ m ∈ graphSucc g n, m ∈ vis2 ∧ m ∉ n :: stack := by
  intro fuel
  induction fuel with
  | zero =>
    intro stack n vis vis2 _ _ _ _ heq
    exact absurd heq (by simp [dfsVisit])
  | succ fuel ih =>
    intro stack n vis vis2 hsub hnvis hnstack hclosed heq
    rw [show dfsVisit g (fuel + 1) stack n vis =
        (if n ∈ vis then (false, vis)
          else
            (graphSucc g n).foldl
              (fun acc m =>
                match acc with
                | (true, vis) => (true, vis)
                | (false, vis) =>
                  if m ∈ vis then
                    if m ∈ n :: stack then (true, vis) else (false, vis)
                  else dfsVisit g fuel (n :: stack) m vis)
              (false, n :: vis)) from rfl] at heq
    rw [if_neg hnvis] at heq
    have hsub1 : n :: stack ⊆ n :: vis := by
      intro x hx
      rcases List.mem_cons.1 hx with hx1 | hx1
      · subst hx1; exact List.mem_cons_self _ _
      · exact List.mem_cons_of_mem _ (hsub hx1)
    have hcl1 : Closed g (n :: vis) (n :: stack) := closed_push g vis stack n hnvis hclosed
    have loop : ∀ (es v v2 : List String), n :: stack ⊆ v →
        Closed g v (n :: stack) →
        es.foldl
          (fun acc m =>
            match acc with
            | (true, vis) => (true, vis)
            | (false, vis) =>
              if m ∈ vis then
                if m ∈ n :: stack then (true, vis) else (false, vis)
              else dfsVisit g fuel (n :: stack) m vis)
          (false, v) = (false, v2) →
        v ⊆ v2 ∧ Closed g v2 (n :: stack) ∧ ∀ m ∈ es, m ∈ v2 ∧ m ∉ n :: stack := by
      intro es
      induction es with
      | nil =>
        intro v v2 hv hc hfold
        have hv2 : v = v2 := by
          have := hfold
          simp only [List.foldl_nil] at this
          injection this with h1 h2
        subst hv2
        exact ⟨List.Subset.refl v, hc, by simp⟩
      | cons m rest ihes =>
        intro v v2 hv hc hfold
        rw [List.foldl_cons] at hfold
        dsimp only at hfold
        by_cases hm : m ∈ v
        · by_cases hms : m ∈ n :: stack
          · rw [if_pos hm, if_pos hms] at hfold
            rw [dfsFold_true] at hfold
            exact absurd hfold (by simp)
          · rw [if_pos hm, if_neg hms] at hfold
            obtain ⟨h1, h2, h3⟩ := ihes v v2 hv hc hfold
            refine ⟨h1, h2, ?_⟩
            intro m' hm'
            rcases List.mem_cons.1 hm' with hm1 | hm1
            · subst hm1
              exact ⟨h1 hm, hms⟩
            · exact h3 m' hm1
        · rw [if_neg hm] at hfold
          cases hr : dfsVisit g fuel (n :: stack) m v with
          | mk b vm =>
            cases b with
            | true =>
              rw [hr] at hfold
              rw [dfsFold_true] at hfold
              exact absurd hfold (by simp)
            | false =>
              rw [hr] at hfold
              have hmns : m ∉ n :: stack := fun hh => hm (hv hh)
              obtain ⟨hv1, hm1, hcl2, hsucc2⟩ :=
                ih (n :: stack) m v vm hv hm hmns hc hr
              have hcl3 : Closed g vm (n :: stack) :=
                closed_pop g vm m (n :: stack) hm1 hsucc2 hcl2
              obtain ⟨h1, h2, h3⟩ := ihes vm v2
                (fun x hx => hv1 (hv hx)) hcl3 hfold
              refine ⟨fun x hx => h1 (hv1 hx), h2, ?_⟩
              intro m' hm'
              rcases List.mem_cons.1 hm' with hm2 | hm2
              · subst hm2
                exact ⟨h1 hm1, hmns⟩
              · exact h3 m' hm2
    obtain ⟨h1, h2, h3⟩ := loop (graphSucc g n) (n :: vis) vis2 hsub1 hcl1 heq
    refine ⟨fun x hx => h1 (List.mem_cons_of_mem _ hx), h1 (List.mem_cons_self _ _),
      h2, h3⟩

/-- Soundness of ConcurrencyControl.hasCycle: a false answer means there is
no nonempty path from the start node back to itself. -/
theorem hasCycle_false_sound (g : Graph) (t : String)
    (h : hasCycle g t = false) : ¬ Relation.TransGen (gEdge g) t t := by
  intro hcyc
  unfold hasCycle at h
  cases hd : dfsVisit g (g.length + 1) [] t [] with
  | mk b vis2 =>
    rw [hd] at h
    dsimp only at h
    subst h
    obtain ⟨_, ht, hcl, hsucc⟩ :=
      dfs_sound g (g.length + 1) [] t [] vis2 (by simp) (by simp) (by simp)
        (closed_nil g []) hd
    obtain ⟨m, hm, hrest⟩ := (Relation.TransGen.head'_iff).1 hcyc
    obtain ⟨hmv, hmS⟩ := hsucc m hm
    obtain ⟨_, hnot⟩ := hcl m hmv hmS t hrest
    exact hnot (by simp)

/-! ## Invariant: initial state, clock bump, abort -/

theorem alookup_map_self {α β : Type} [DecidableEq α] (l : List α) (f : α → β)
    (s : α) (v : β) (h : alookup (l.map fun k => (k, f k)) s = some v) :
    v = f s := by
  induction l with
  | nil => simp [alookup] at h
  | cons a t ih =>
    by_cases ha : a = s
    · subst ha
      simp only [List.map_cons, alookup, if_pos rfl] at h
      injection h with h
      exact h.symm
    · simp only [List.map_cons, alookup, if_neg ha] at h
      exact ih h

theorem map_fst_map_pair {α β : Type} (l : List α) (f : α → β) :
    (l.map fun k => (k, f k)).map Prod.fst = l := by
  induction l with
  | nil => rfl
  | cons a t ih =>
    show ((a, f a) :: t.map fun k => (k, f k)).map Prod.fst = a :: t
    rw [List.map_cons, ih]

theorem initSiteVars_keys (varIds : List Nat) :
    (initSiteVars varIds).map Prod.fst = varIds := by
  unfold initSiteVars
  exact map_fst_map_pair varIds _

theorem inv_init : Inv initState := by
  refine
    { sitesKeys := ?_
      storeKeys := ?_
      storeVarKeys := ?_
      versSorted := ?_
      beginLt := ?_
      commitBounds := ?_
      writeSetNodup := ?_
      targetsNodup := ?_
      committedLW := ?_
      fcwCorrect := ?_
      committedAcyclic := ?_
      activeRead := ?_
      committedRead := ?_ }
  · exact map_fst_map_pair siteIds fun _ => mkSite
  · exact map_fst_map_pair siteIds fun s => initSiteVars (variableIdsForSite s)
  · intro s ss h
    have := alookup_map_self _ _ _ _ h
    subst this
    exact initSiteVars_keys _
  · intro s i vers h
    unfold storeVers at h
    cases hs : alookup initState.versionStore s with
    | none => rw [hs] at h; simp at h
    | some ss =>
      rw [hs] at h
      have hss := alookup_map_self _ _ _ _ hs
      subst hss
      have hv := alookup_map_self _ _ _ _ h
      subst hv
      refine ⟨List.chain'_singleton _, ?_⟩
      intro ver hver
      simp only [List.mem_singleton] at hver
      subst hver
      show (0 : Nat) < initState.currentTime
      decide
  · intro t tx h; simp [initState, alookup] at h
  · intro t tx h; simp [initState, alookup] at h
  · intro t tx h; simp [initState, alookup] at h
  · intro t tx i e h; simp [initState, alookup] at h
  · intro t tx i e c h; simp [initState, alookup] at h
  · intro a b txA txB i eA eB cA cB hA; simp [initState, alookup] at hA
  · intro t hcyc
    obtain ⟨m, hm, _⟩ := (Relation.TransGen.head'_iff).1 hcyc
    obtain ⟨_, ⟨tx, htx, _⟩, _⟩ := hm
    simp [initState, alookup] at htx
  · intro t tx i e h; simp [initState, alookup] at h
  · intro t tx i e h; simp [initState, alookup] at h

theorem inv_time_bump (st : SimState) (inv : Inv st) (k : Nat)
    (hk : st.currentTime ≤ k) : Inv { st with currentTime := k } := by
  refine
    { sitesKeys := inv.sitesKeys
      storeKeys := inv.storeKeys
      storeVarKeys := inv.storeVarKeys
      versSorted := ?_
      beginLt := ?_
      commitBounds := ?_
      writeSetNodup := inv.writeSetNodup
      targetsNodup := inv.targetsNodup
      committedLW := inv.committedLW
      fcwCorrect := inv.fcwCorrect
      committedAcyclic := ?_
      activeRead := inv.activeRead
      committedRead := inv.committedRead }
  · intro s i vers h
    obtain ⟨h1, h2⟩ := inv.versSorted s i vers h
    exact ⟨h1, fun ver hver => lt_of_lt_of_le (h2 ver hver) hk⟩
  · intro t tx h
    exact lt_of_lt_of_le (inv.beginLt t tx h) hk
  · intro t tx h hc
    obtain ⟨c, h1, h2, h3⟩ := inv.commitBounds t tx h hc
    exact ⟨c, h1, h2, lt_of_lt_of_le h3 hk⟩
  · exact inv.committedAcyclic

theorem abort_state (st : SimState) (t : String) (r : AbortReason)
    (tx0 : Transaction) (h : alookup st.txns t = some tx0) :
    (abort st t r).1 =
      ccAbortTransaction
        { st with
          txns := updAssoc st.txns t fun tx => { tx with status := .Aborted } }
        t := by
  unfold abort
  rw [h]

theorem abort_inv (st : SimState) (t : String) (r : AbortReason)
    (inv : Inv st)
    (hact : ∀ tx, alookup st.txns t = some tx →
      tx.status = TransactionStatus.Active) :
    Inv (abort st t r).1 := by
  cases h : alookup st.txns t with
  | none =>
    rw [show (abort st t r).1 = st from by unfold abort; rw [h]]
    exact inv
  | some tx0 =>
    rw [abort_state st t r tx0 h]
    have htxa : ∀ a, a ≠ t →
        alookup (updAssoc st.txns t fun tx =>
          { tx with status := TransactionStatus.Aborted }) a =
        alookup st.txns a := fun a ha => alookup_updAssoc_ne _ _ _ _ ha
    have htxt : alookup (updAssoc st.txns t fun tx =>
        { tx with status := TransactionStatus.Aborted }) t =
        some { tx0 with status := .Aborted } := by
      rw [alookup_updAssoc_self, h]
      rfl
    have hlook : ∀ a tx, alookup (updAssoc st.txns t fun tx =>
        { tx with status := TransactionStatus.Aborted }) a = some tx →
        (a = t ∧ tx = { tx0 with status := .Aborted }) ∨
        (alookup st.txns a = some tx ∧ tx.status = tx.status) := by
      intro a tx ha
      by_cases hat : a = t
      · subst hat
        rw [htxt] at ha
        injection ha with ha
        exact Or.inl ⟨rfl, ha.symm⟩
      · rw [htxa a hat] at ha
        exact Or.inr ⟨ha, rfl⟩
    refine
      { sitesKeys := inv.sitesKeys
        storeKeys := inv.storeKeys
        storeVarKeys := inv.storeVarKeys
        versSorted := inv.versSorted
        beginLt := ?_
        commitBounds := ?_
        writeSetNodup := ?_
        targetsNodup := ?_
        committedLW := ?_
        fcwCorrect := ?_
        committedAcyclic := ?_
        activeRead := ?_
        committedRead := ?_ }
    · intro a tx ha
      rcases hlook a tx ha with ⟨rfl, rfl⟩ | ⟨ha2, _⟩
      · exact inv.beginLt a tx0 h
      · exact inv.beginLt a tx ha2
    · intro a tx ha hc
      rcases hlook a tx ha with ⟨rfl, rfl⟩ | ⟨ha2, _⟩
      · simp at hc
      · exact inv.commitBounds a tx ha2 hc
    · intro a tx ha
      rcases hlook a tx ha with ⟨rfl, rfl⟩ | ⟨ha2, _⟩
      · exact inv.writeSetNodup a tx0 h
      · exact inv.writeSetNodup a tx ha2
    · intro a tx i e ha he
      rcases hlook a tx ha with ⟨rfl, rfl⟩ | ⟨ha2, _⟩
      · exact inv.targetsNodup a tx0 i e h he
      · exact inv.targetsNodup a tx i e ha2 he
    · intro a tx i e c ha hc he hct
      rcases hlook a tx ha with ⟨rfl, rfl⟩ | ⟨ha2, _⟩
      · simp at hc
      · exact inv.committedLW a tx i e c ha2 hc he hct
    · intro a b txA txB i eA eB cA cB hA hB hcA hcB heA heB hctA hctB hbb hcc
      rcases hlook a txA hA with ⟨rfl, rfl⟩ | ⟨hA2, _⟩
      · simp at hcA
      · rcases hlook b txB hB with ⟨rfl, rfl⟩ | ⟨hB2, _⟩
        · simp at hcB
        · exact inv.fcwCorrect a b txA txB i eA eB cA cB hA2 hB2 hcA hcB heA
            heB hctA hctB hbb hcc
    · intro x hcyc
      refine inv.committedAcyclic x (Relation.TransGen.mono ?_ hcyc)
      rintro u v ⟨hg, hu, hv⟩
      obtain ⟨hg2, hvt, hut⟩ := gEdge_ccAbort _ _ _ _ hg
      refine ⟨hg2, ?_, ?_⟩
      · obtain ⟨tx, hl, hs⟩ := hu
        rcases hlook u tx hl with ⟨rfl, rfl⟩ | ⟨hl2, _⟩
        · exact absurd rfl hut
        · exact ⟨tx, hl2, hs⟩
      · obtain ⟨tx, hl, hs⟩ := hv
        rcases hlook v tx hl with ⟨rfl, rfl⟩ | ⟨hl2, _⟩
        · exact absurd rfl hvt
        · exact ⟨tx, hl2, hs⟩
    · intro a tx i e ha hs he
      rcases hlook a tx ha with ⟨rfl, rfl⟩ | ⟨ha2, _⟩
      · simp at hs
      · exact inv.activeRead a tx i e ha2 hs he
    · intro a tx i e ha hs he
      rcases hlook a tx ha with ⟨rfl, rfl⟩ | ⟨ha2, _⟩
      · simp at hs
      · exact inv.committedRead a tx i e ha2 hs he

/-! ## Invariant: fail, recover, begin -/

theorem alookup_updAssoc_cases {α β : Type} [DecidableEq α]
    (l : List (α × β)) (k : α) (f : β → β) (a : α) (v : β)
    (h : alookup (updAssoc l k f) a = some v) :
    (a = k ∧ ∃ v0, alookup l k = some v0 ∧ v = f v0) ∨
    (a ≠ k ∧ alookup l a = some v) := by
  by_cases ha : a = k
  · subst ha
    rw [alookup_updAssoc_self] at h
    cases hl : alookup l a with
    | none => rw [hl] at h; simp at h
    | some v0 =>
      rw [hl] at h
      simp only [Option.map_some', Option.some.injEq] at h
      exact Or.inl ⟨rfl, v0, rfl, h.symm⟩
  · rw [alookup_updAssoc_ne _ _ _ _ ha] at h
    exact Or.inr ⟨ha, h⟩

theorem alookup_aset_cases {α β : Type} [DecidableEq α]
    (l : List (α × β)) (k : α) (v : β) (a : α) (w : β)
    (h : alookup (aset l k v) a = some w) :
    (a = k ∧ w = v) ∨ (a ≠ k ∧ alookup l a = some w) := by
  by_cases ha : a = k
  · subst ha
    rw [alookup_aset_self] at h
    injection h with h
    exact Or.inl ⟨rfl, h.symm⟩
  · rw [alookup_aset_ne _ _ _ _ ha] at h
    exact Or.inr ⟨ha, h⟩

theorem handleSiteFailure_inv (st : SimState) (s : Nat) (inv : Inv st) :
    Inv (handleSiteFailure st s).1 := by
  unfold handleSiteFailure
  have main : ∀ (l : List (String × Transaction)) (acc : SimState × List Line),
      Inv acc.1 →
      Inv (l.foldl
        (fun acc p =>
          match alookup acc.1.txns p.1 with
          | some tx =>
            if tx.status = TransactionStatus.Active ∧ s ∈ tx.touchedSites then
              let r := abort acc.1 p.1 (.siteFailed s)
              (r.1, acc.2 ++ r.2)
            else acc
          | none => acc)
        acc).1 := by
    intro l
    induction l with
    | nil => intro acc h; exact h
    | cons p t ih =>
      intro acc h
      rw [List.foldl_cons]
      apply ih
      cases hl : alookup acc.1.txns p.1 with
      | none => simpa only [hl] using h
      | some tx =>
        by_cases hcond : tx.status = TransactionStatus.Active ∧
            s ∈ tx.touchedSites
        · simp only [hl, if_pos hcond]
          exact abort_inv acc.1 p.1 _ h
            (fun tx' htx' => by
              rw [hl] at htx'
              injection htx' with e
              rw [← e]
              exact hcond.1)
        · simp only [hl, if_neg hcond]
          exact h
  exact main st.txns (st, []) inv

theorem failSite_inv (st : SimState) (s : Nat) (inv : Inv st) :
    Inv { st with sites := failSite st.sites s st.currentTime } := by
  refine
    { sitesKeys := ?_
      storeKeys := inv.storeKeys
      storeVarKeys := inv.storeVarKeys
      versSorted := inv.versSorted
      beginLt := inv.beginLt
      commitBounds := inv.commitBounds
      writeSetNodup := inv.writeSetNodup
      targetsNodup := inv.targetsNodup
      committedLW := inv.committedLW
      fcwCorrect := inv.fcwCorrect
      committedAcyclic := inv.committedAcyclic
      activeRead := ?_
      committedRead := ?_ }
  · show (failSite st.sites s st.currentTime).map Prod.fst = siteIds
    unfold failSite
    rw [updAssoc_keys]
    exact inv.sitesKeys
  · intro a tx i e ha hs he
    obtain ⟨h1, h2⟩ := inv.activeRead a tx i e ha hs he
    exact ⟨wasContinuouslyUp_failSite st.sites s st.currentTime e.siteId
      e.timestamp tx.beginTimestamp (le_of_lt (inv.beginLt a tx ha)) h1, h2⟩
  · intro a tx i e ha hs he
    exact wasContinuouslyUp_failSite st.sites s st.currentTime e.siteId
      e.timestamp tx.beginTimestamp (le_of_lt (inv.beginLt a tx ha))
      (inv.committedRead a tx i e ha hs he)

theorem recoverSite_inv (st : SimState) (s : Nat) (inv : Inv st) :
    Inv { st with
      sites := recoverSite st.versionStore st.sites s st.currentTime } := by
  refine
    { sitesKeys := ?_
      storeKeys := inv.storeKeys
      storeVarKeys := inv.storeVarKeys
      versSorted := inv.versSorted
      beginLt := inv.beginLt
      commitBounds := inv.commitBounds
      writeSetNodup := inv.writeSetNodup
      targetsNodup := inv.targetsNodup
      committedLW := inv.committedLW
      fcwCorrect := inv.fcwCorrect
      committedAcyclic := inv.committedAcyclic
      activeRead := ?_
      committedRead := ?_ }
  · show (recoverSite st.versionStore st.sites s st.currentTime).map Prod.fst =
      siteIds
    unfold recoverSite
    rw [updAssoc_keys]
    exact inv.sitesKeys
  · intro a tx i e ha hs he
    obtain ⟨h1, h2⟩ := inv.activeRead a tx i e ha hs he
    exact ⟨wasContinuouslyUp_recoverSite st.versionStore st.sites s
      st.currentTime e.siteId e.timestamp tx.beginTimestamp h1, h2⟩
  · intro a tx i e ha hs he
    exact wasContinuouslyUp_recoverSite st.versionStore st.sites s
      st.currentTime e.siteId e.timestamp tx.beginTimestamp
      (inv.committedRead a tx i e ha hs he)

theorem begin_inv (st : SimState) (t : String) (inv : Inv st) :
    Inv (begin st t).1 := by
  unfold begin
  by_cases h : (alookup st.txns t).isSome
  · rw [if_pos h]
    exact inv
  · rw [if_neg h]
    have hlook : ∀ a tx, alookup (aset st.txns t
        ⟨TransactionStatus.Active, st.currentTime, none, [], [], []⟩) a =
          some tx →
        (a = t ∧ tx =
          (⟨TransactionStatus.Active, st.currentTime, none, [], [], []⟩ :
            Transaction)) ∨
        (a ≠ t ∧ alookup st.txns a = some tx) :=
      fun a tx ha => alookup_aset_cases _ _ _ _ _ ha
    refine
      { sitesKeys := inv.sitesKeys
        storeKeys := inv.storeKeys
        storeVarKeys := inv.storeVarKeys
        versSorted := ?_
        beginLt := ?_
        commitBounds := ?_
        writeSetNodup := ?_
        targetsNodup := ?_
        committedLW := ?_
        fcwCorrect := ?_
        committedAcyclic := ?_
        activeRead := ?_
        committedRead := ?_ }
    · intro s i vers hv
      obtain ⟨h1, h2⟩ := inv.versSorted s i vers hv
      exact ⟨h1, fun ver hver => Nat.lt_succ_of_lt (h2 ver hver)⟩
    · intro a tx ha
      rcases hlook a tx ha with ⟨rfl, rfl⟩ | ⟨_, ha2⟩
      · exact Nat.lt_succ_self _
      · exact Nat.lt_succ_of_lt (inv.beginLt a tx ha2)
    · intro a tx ha hc
      rcases hlook a tx ha with ⟨rfl, rfl⟩ | ⟨_, ha2⟩
      · simp at hc
      · obtain ⟨c, h1, h2, h3⟩ := inv.commitBounds a tx ha2 hc
        exact ⟨c, h1, h2, Nat.lt_succ_of_lt h3⟩
    · intro a tx ha
      rcases hlook a tx ha with ⟨rfl, rfl⟩ | ⟨_, ha2⟩
      · exact List.nodup_nil
      · exact inv.writeSetNodup a tx ha2
    · intro a tx i e ha he
      rcases hlook a tx ha with ⟨rfl, rfl⟩ | ⟨_, ha2⟩
      · simp at he
      · exact inv.targetsNodup a tx i e ha2 he
    · intro a tx i e c ha hc he hct
      rcases hlook a tx ha with ⟨rfl, rfl⟩ | ⟨_, ha2⟩
      · simp at hc
      · exact inv.committedLW a tx i e c ha2 hc he hct
    · intro a b txA txB i eA eB cA cB hA hB hcA hcB heA heB hctA hctB hbb hcc
      rcases hlook a txA hA with ⟨rfl, rfl⟩ | ⟨_, hA2⟩
      · simp at hcA
      · rcases hlook b txB hB with ⟨rfl, rfl⟩ | ⟨_, hB2⟩
        · simp at hcB
        · exact inv.fcwCorrect a b txA txB i eA eB cA cB hA2 hB2 hcA hcB heA
            heB hctA hctB hbb hcc
    · intro x hcyc
      refine inv.committedAcyclic x (Relation.TransGen.mono ?_ hcyc)
      rintro u v ⟨hg, hu, hv⟩
      have hg2 : gEdge st.graph u v := by
        unfold gEdge at hg ⊢
        rw [graphSucc_registerTransaction] at hg
        exact hg
      refine ⟨hg2, ?_, ?_⟩
      · obtain ⟨tx, hl, hs⟩ := hu
        rcases hlook u tx hl with ⟨rfl, rfl⟩ | ⟨_, hl2⟩
        · simp at hs
        · exact ⟨tx, hl2, hs⟩
      · obtain ⟨tx, hl, hs⟩ := hv
        rcases hlook v tx hl with ⟨rfl, rfl⟩ | ⟨_, hl2⟩
        · simp at hs
        · exact ⟨tx, hl2, hs⟩
    · intro a tx i e ha hs he
      rcases hlook a tx ha with ⟨rfl, rfl⟩ | ⟨_, ha2⟩
      · simp at he
      · exact inv.activeRead a tx i e ha2 hs he
    · intro a tx i e ha hs he
      rcases hlook a tx ha with ⟨rfl, rfl⟩ | ⟨_, ha2⟩
      · simp at hs
      · exact inv.committedRead a tx i e ha2 hs he

/-! ## Invariant: read and write -/

theorem gEdge_recordRead (st : SimState) (t : String) (i vts : Nat)
    (u v : String) (h : gEdge (recordRead st t i vts).graph u v) :
    gEdge st.graph u v ∨ v = t := by
  unfold recordRead at h
  dsimp only at h
  cases hf : st.writeHistory.find? (fun p => alookup p.2 i = some vts) with
  | none =>
    simp only [hf] at h
    left
    unfold gEdge at h ⊢
    rw [graphSucc_registerTransaction] at h
    exact h
  | some p =>
    simp only [hf] at h
    rcases gEdge_addEdge _ _ _ _ _ h with h1 | h1
    · left
      unfold gEdge at h1 ⊢
      rw [graphSucc_registerTransaction] at h1
      exact h1
    · exact Or.inr h1.2

theorem siteIds_nodup : siteIds.Nodup := by decide

theorem getAvailableSites_nodup (sites : SiteMap)
    (hk : sites.map Prod.fst = siteIds) : (getAvailableSites sites).Nodup := by
  have hsub : List.Sublist (getAvailableSites sites) (sites.map Prod.fst) :=
    List.Sublist.map Prod.fst (List.filter_sublist sites)
  rw [hk] at hsub
  exact siteIds_nodup.sublist hsub

theorem selectWriteSites_nodup (store : Store) (sites : SiteMap) (i : Nat)
    (hk : sites.map Prod.fst = siteIds) :
    (selectWriteSites store sites i).Nodup := by
  unfold selectWriteSites
  cases hr : isReplicated i with
  | true =>
    simp only [if_true]
    exact (getAvailableSites_nodup sites hk).sublist
      (List.filter_sublist (getAvailableSites sites))
  | false =>
    simp only [Bool.false_eq_true, if_false]
    by_cases ha : isAvailable sites (getSiteForVariable i)
    · simp only [ha, if_true]
      exact List.nodup_singleton _
    · simp only [ha, Bool.false_eq_true, if_false]
      exact List.nodup_nil

theorem read_inv (st : SimState) (t : String) (i : Nat) (inv : Inv st) :
    Inv (read st t i).1 := by
  cases htx : alookup st.txns t with
  | none =>
    rw [show (read st t i).1 = st from by unfold read; rw [htx]]
    exact inv
  | some tx =>
    by_cases hact : tx.status = TransactionStatus.Active
    · cases hws : alookup tx.writeSet i with
      | some we =>
        rw [show (read st t i).1 = st from by
          unfold read; rw [htx]; simp [hact, hws]]
        exact inv
      | none =>
        cases hsr : selectReadSite st.versionStore st.sites i
            tx.beginTimestamp with
        | none =>
          rw [show (read st t i).1 = st from by
            unfold read; rw [htx]; simp [hact, hws, hsr]]
          exact inv
        | some pr =>
          obtain ⟨s, vts⟩ := pr
          obtain ⟨hcr, ⟨ver0, hgv, hvt⟩, hcont⟩ :=
            selectReadSite_spec _ _ _ _ _ _ hsr
          rw [show (read st t i).1 = recordRead
              { st with txns := updAssoc st.txns t fun tx0 =>
                  { tx0 with
                    readSet := aset tx0.readSet i ⟨s, vts⟩
                    touchedSites := sinsert tx0.touchedSites s } } t i vts from by
            unfold read; rw [htx]; simp [hact, hws, hsr, hgv]]
          have hlk : ∀ a tx', alookup (updAssoc st.txns t fun tx0 =>
              { tx0 with
                readSet := aset tx0.readSet i ⟨s, vts⟩
                touchedSites := sinsert tx0.touchedSites s }) a = some tx' →
              (a = t ∧ tx' =
                { tx with
                  readSet := aset tx.readSet i ⟨s, vts⟩
                  touchedSites := sinsert tx.touchedSites s }) ∨
              (a ≠ t ∧ alookup st.txns a = some tx') := by
            intro a tx' ha
            rcases alookup_updAssoc_cases _ _ _ _ _ ha with ⟨rfl, v0, hv0, rfl⟩ | h2
            · rw [htx] at hv0
              injection hv0 with hv0
              subst hv0
              exact Or.inl ⟨rfl, rfl⟩
            · exact Or.inr h2
          refine
            { sitesKeys := inv.sitesKeys
              storeKeys := inv.storeKeys
              storeVarKeys := inv.storeVarKeys
              versSorted := inv.versSorted
              beginLt := ?_
              commitBounds := ?_
              writeSetNodup := ?_
              targetsNodup := ?_
              committedLW := ?_
              fcwCorrect := ?_
              committedAcyclic := ?_
              activeRead := ?_
              committedRead := ?_ }
          · intro a tx' ha
            rcases hlk a tx' ha with ⟨rfl, rfl⟩ | ⟨_, ha2⟩
            · exact inv.beginLt a tx htx
            · exact inv.beginLt a tx' ha2
          · intro a tx' ha hc
            rcases hlk a tx' ha with ⟨rfl, rfl⟩ | ⟨_, ha2⟩
            · have hc2 : tx.status = TransactionStatus.Committed := hc
              rw [hact] at hc2
              exact absurd hc2 (by simp)
            · exact inv.commitBounds a tx' ha2 hc
          · intro a tx' ha
            rcases hlk a tx' ha with ⟨rfl, rfl⟩ | ⟨_, ha2⟩
            · exact inv.writeSetNodup a tx htx
            · exact inv.writeSetNodup a tx' ha2
          · intro a tx' j e ha he
            rcases hlk a tx' ha with ⟨rfl, rfl⟩ | ⟨_, ha2⟩
            · exact inv.targetsNodup a tx j e htx he
            · exact inv.targetsNodup a tx' j e ha2 he
          · intro a tx' j e c ha hc he hct
            rcases hlk a tx' ha with ⟨rfl, rfl⟩ | ⟨_, ha2⟩
            · have hc2 : tx.status = TransactionStatus.Committed := hc
              rw [hact] at hc2
              exact absurd hc2 (by simp)
            · exact inv.committedLW a tx' j e c ha2 hc he hct
          · intro a b txA txB j eA eB cA cB hA hB hcA hcB heA heB hctA hctB
              hbb hcc
            rcases hlk a txA hA with ⟨rfl, rfl⟩ | ⟨_, hA2⟩
            · have hc2 : tx.status = TransactionStatus.Committed := hcA
              rw [hact] at hc2
              exact absurd hc2 (by simp)
            · rcases hlk b txB hB with ⟨rfl, rfl⟩ | ⟨_, hB2⟩
              · have hc2 : tx.status = TransactionStatus.Committed := hcB
                rw [hact] at hc2
                exact absurd hc2 (by simp)
              · exact inv.fcwCorrect a b txA txB j eA eB cA cB hA2 hB2 hcA hcB
                  heA heB hctA hctB hbb hcc
          · intro x hcyc
            refine inv.committedAcyclic x (Relation.TransGen.mono ?_ hcyc)
            rintro u v ⟨hg, hu, hv⟩
            have hvt2 : ¬ v = t := by
              intro hvt3
              subst hvt3
              obtain ⟨tx', hl, hs⟩ := hv
              rcases hlk v tx' hl with ⟨_, rfl⟩ | ⟨hne, _⟩
              · have hc2 : tx.status = TransactionStatus.Committed := hs
                rw [hact] at hc2
                exact absurd hc2 (by simp)
              · exact hne rfl
            rcases gEdge_recordRead _ _ _ _ _ _ hg with h1 | h1
            · refine ⟨h1, ?_, ?_⟩
              · obtain ⟨tx', hl, hs⟩ := hu
                rcases hlk u tx' hl with ⟨rfl, rfl⟩ | ⟨_, hl2⟩
                · exact ⟨tx, htx, hs⟩
                · exact ⟨tx', hl2, hs⟩
              · obtain ⟨tx', hl, hs⟩ := hv
                rcases hlk v tx' hl with ⟨rfl, rfl⟩ | ⟨_, hl2⟩
                · exact ⟨tx, htx, hs⟩
                · exact ⟨tx', hl2, hs⟩
            · exact absurd h1 hvt2
          · intro a tx' j e ha hs he
            rcases hlk a tx' ha with ⟨rfl, rfl⟩ | ⟨_, ha2⟩
            · rcases mem_aset _ _ _ _ he with he1 | he1
              · rw [Prod.mk.injEq] at he1
                obtain ⟨rfl, rfl⟩ := he1
                exact ⟨hcont, mem_sinsert_self _ _⟩
              · obtain ⟨h1, h2⟩ := inv.activeRead a tx j e htx hact he1
                exact ⟨h1, mem_sinsert_of_mem _ _ _ h2⟩
            · exact inv.activeRead a tx' j e ha2 hs he
          · intro a tx' j e ha hs he
            rcases hlk a tx' ha with ⟨rfl, rfl⟩ | ⟨_, ha2⟩
            · have hc2 : tx.status = TransactionStatus.Committed := hs
              rw [hact] at hc2
              exact absurd hc2 (by simp)
            · exact inv.committedRead a tx' j e ha2 hs he
    · rw [show (read st t i).1 = st from by unfold read; rw [htx]; simp [hact]]
      exact inv

theorem write_inv (st : SimState) (t : String) (i : Nat) (v : Int)
    (inv : Inv st) : Inv (write st t i v).1 := by
  cases htx : alookup st.txns t with
  | none =>
    rw [show (write st t i v).1 = st from by unfold write; rw [htx]]
    exact inv
  | some tx =>
    by_cases hact : tx.status = TransactionStatus.Active
    · rw [show (write st t i v).1 =
        { st with txns := updAssoc st.txns t fun tx0 =>
            { tx0 with
              writeSet := aset tx0.writeSet i
                ⟨v, selectWriteSites st.versionStore st.sites i⟩
              touchedSites :=
                (selectWriteSites st.versionStore st.sites i).foldl sinsert
                  tx0.touchedSites } } from by
        unfold write; rw [htx]; simp [hact]]
      have hlk : ∀ a tx', alookup (updAssoc st.txns t fun tx0 =>
          { tx0 with
            writeSet := aset tx0.writeSet i
              ⟨v, selectWriteSites st.versionStore st.sites i⟩
            touchedSites :=
              (selectWriteSites st.versionStore st.sites i).foldl sinsert
                tx0.touchedSites }) a = some tx' →
          (a = t ∧ tx' =
            { tx with
              writeSet := aset tx.writeSet i
                ⟨v, selectWriteSites st.versionStore st.sites i⟩
              touchedSites :=
                (selectWriteSites st.versionStore st.sites i).foldl sinsert
                  tx.touchedSites }) ∨
          (a ≠ t ∧ alookup st.txns a = some tx') := by
        intro a tx' ha
        rcases alookup_updAssoc_cases _ _ _ _ _ ha with ⟨rfl, v0, hv0, rfl⟩ | h2
        · rw [htx] at hv0
          injection hv0 with hv0
          subst hv0
          exact Or.inl ⟨rfl, rfl⟩
        · exact Or.inr h2
      refine
        { sitesKeys := inv.sitesKeys
          storeKeys := inv.storeKeys
          storeVarKeys := inv.storeVarKeys
          versSorted := inv.versSorted
          beginLt := ?_
          commitBounds := ?_
          writeSetNodup := ?_
          targetsNodup := ?_
          committedLW := ?_
          fcwCorrect := ?_
          committedAcyclic := ?_
          activeRead := ?_
          committedRead := ?_ }
      · intro a tx' ha
        rcases hlk a tx' ha with ⟨rfl, rfl⟩ | ⟨_, ha2⟩
        · exact inv.beginLt a tx htx
        · exact inv.beginLt a tx' ha2
      · intro a tx' ha hc
        rcases hlk a tx' ha with ⟨rfl, rfl⟩ | ⟨_, ha2⟩
        · have hc2 : tx.status = TransactionStatus.Committed := hc
          rw [hact] at hc2
          exact absurd hc2 (by simp)
        · exact inv.commitBounds a tx' ha2 hc
      · intro a tx' ha
        rcases hlk a tx' ha with ⟨rfl, rfl⟩ | ⟨_, ha2⟩
        · exact aset_keys_nodup _ _ _ (inv.writeSetNodup a tx htx)
        · exact inv.writeSetNodup a tx' ha2
      · intro a tx' j e ha he
        rcases hlk a tx' ha with ⟨rfl, rfl⟩ | ⟨_, ha2⟩
        · rcases mem_aset _ _ _ _ he with he1 | he1
          · rw [Prod.mk.injEq] at he1
            obtain ⟨he3, he4⟩ := he1
            subst he4
            exact selectWriteSites_nodup _ _ _ inv.sitesKeys
          · exact inv.targetsNodup a tx j e htx he1
        · exact inv.targetsNodup a tx' j e ha2 he
      · intro a tx' j e c ha hc he hct
        rcases hlk a tx' ha with ⟨rfl, rfl⟩ | ⟨_, ha2⟩
        · have hc2 : tx.status = TransactionStatus.Committed := hc
          rw [hact] at hc2
          exact absurd hc2 (by simp)
        · exact inv.committedLW a tx' j e c ha2 hc he hct
      · intro a b txA txB j eA eB cA cB hA hB hcA hcB heA heB hctA hctB hbb hcc
        rcases hlk a txA hA with ⟨rfl, rfl⟩ | ⟨_, hA2⟩
        · have hc2 : tx.status = TransactionStatus.Committed := hcA
          rw [hact] at hc2
          exact absurd hc2 (by simp)
        · rcases hlk b txB hB with ⟨rfl, rfl⟩ | ⟨_, hB2⟩
          · have hc2 : tx.status = TransactionStatus.Committed := hcB
            rw [hact] at hc2
            exact absurd hc2 (by simp)
          · exact inv.fcwCorrect a b txA txB j eA eB cA cB hA2 hB2 hcA hcB heA
              heB hctA hctB hbb hcc
      · intro x hcyc
        refine inv.committedAcyclic x (Relation.TransGen.mono ?_ hcyc)
        rintro u v2 ⟨hg, hu, hv⟩
        refine ⟨hg, ?_, ?_⟩
        · obtain ⟨tx', hl, hs⟩ := hu
          rcases hlk u tx' hl with ⟨rfl, rfl⟩ | ⟨_, hl2⟩
          · exact ⟨tx, htx, hs⟩
          · exact ⟨tx', hl2, hs⟩
        · obtain ⟨tx', hl, hs⟩ := hv
          rcases hlk v2 tx' hl with ⟨rfl, rfl⟩ | ⟨_, hl2⟩
          · exact ⟨tx, htx, hs⟩
          · exact ⟨tx', hl2, hs⟩
      · intro a tx' j e ha hs he
        rcases hlk a tx' ha with ⟨rfl, rfl⟩ | ⟨_, ha2⟩
        · obtain ⟨h1, h2⟩ := inv.activeRead a tx j e htx hact he
          exact ⟨h1, mem_foldl_sinsert_of_mem _ _ _ h2⟩
        · exact inv.activeRead a tx' j e ha2 hs he
      · intro a tx' j e ha hs he
        rcases hlk a tx' ha with ⟨rfl, rfl⟩ | ⟨_, ha2⟩
        · have hc2 : tx.status = TransactionStatus.Committed := hs
          rw [hact] at hc2
          exact absurd hc2 (by simp)
        · exact inv.committedRead a tx' j e ha2 hs he
    · rw [show (write st t i v).1 = st from by
        unfold write; rw [htx]; simp [hact]]
      exact inv

/-! ## Cycle decomposition and write-install lemmas -/

theorem transGen_avoid_or_through {α : Type} (r : α → α → Prop) (T a : α)
    (ha : a ≠ T) :
    ∀ b, Relation.TransGen r a b → b ≠ T →
    Relation.TransGen (fun x y => r x y ∧ x ≠ T ∧ y ≠ T) a b ∨
      (Relation.ReflTransGen r a T ∧ Relation.ReflTransGen r T b) := by
  intro b h
  induction h with
  | single h1 =>
    intro hb
    exact Or.inl (Relation.TransGen.single ⟨h1, ha, hb⟩)
  | @tail m c h1 h2 ih =>
    intro hc
    by_cases hmT : m = T
    · subst hmT
      exact Or.inr ⟨h1.to_reflTransGen, Relation.ReflTransGen.single h2⟩
    · rcases ih hmT with hL | ⟨hR1, hR2⟩
      · exact Or.inl (hL.tail ⟨h2, hmT, hc⟩)
      · exact Or.inr ⟨hR1, hR2.tail h2⟩

theorem StoreOK.mono (store : Store) (ct : Nat) {P Q : Nat → Nat → Prop}
    (h : StoreOK store ct P) (hq : ∀ s i, Q s i → P s i) :
    StoreOK store ct Q := by
  intro s i vers hv
  obtain ⟨h1, h2, h3⟩ := h s i vers hv
  exact ⟨h1, h2, fun hp => h3 (hq _ _ hp)⟩

theorem addVersionRun_none (store : Store) (s i ts : Nat) (v : Int)
    (h : storeVers store s i = none) : addVersionRun store s i ts v = store := by
  unfold storeVers at h
  unfold addVersionRun addVersion
  cases hs : alookup store s with
  | none => simp [hs]
  | some ss =>
    simp only [hs] at h
    simp [hs, h]

theorem storeVers_addVersionRun_self (store : Store) (s i ts : Nat) (v : Int)
    (vers : List Version) (h : storeVers store s i = some vers) :
    storeVers (addVersionRun store s i ts v) s i = some (vers ++ [⟨ts, v⟩]) := by
  unfold storeVers at h ⊢
  cases hs : alookup store s with
  | none => rw [hs] at h; simp at h
  | some ss =>
    simp only [hs] at h
    unfold addVersionRun addVersion
    simp only [hs, h]
    rw [alookup_updAssoc_self, hs]
    simp only [Option.map_some']
    rw [alookup_updAssoc_self, h]
    rfl

theorem storeVers_addVersionRun_other (store : Store) (s i ts : Nat) (v : Int)
    (s' i' : Nat) (hne : ¬(s' = s ∧ i' = i)) :
    storeVers (addVersionRun store s i ts v) s' i' = storeVers store s' i' := by
  unfold addVersionRun addVersion
  cases hs : alookup store s with
  | none => simp [hs]
  | some ss =>
    cases hi : alookup ss i with
    | none => simp [hs, hi]
    | some vers =>
      simp only [hs, hi]
      unfold storeVers
      by_cases hss : s' = s
      · have hii : ¬ i' = i := fun hii2 => hne ⟨hss, hii2⟩
        subst hss
        rw [alookup_updAssoc_self, hs]
        simp only [Option.map_some']
        rw [alookup_updAssoc_ne _ _ _ _ hii]
      · rw [alookup_updAssoc_ne _ _ _ _ hss]

theorem addVersionRun_keys (store : Store) (s i ts : Nat) (v : Int) :
    (addVersionRun store s i ts v).map Prod.fst = store.map Prod.fst ∧
    ∀ s' ss', alookup (addVersionRun store s i ts v) s' = some ss' →
      ∃ ss, alookup store s' = some ss ∧ ss'.map Prod.fst = ss.map Prod.fst := by
  unfold addVersionRun addVersion
  cases hs : alookup store s with
  | none =>
    simp only [hs]
    exact ⟨trivial, fun s' ss' h => ⟨ss', h, rfl⟩⟩
  | some ss =>
    cases hi : alookup ss i with
    | none =>
      simp only [hs, hi]
      exact ⟨trivial, fun s' ss' h => ⟨ss', h, rfl⟩⟩
    | some vers =>
      simp only [hs, hi]
      refine ⟨updAssoc_keys _ _ _, ?_⟩
      intro s' ss' h
      by_cases hss : s' = s
      · subst hss
        rw [alookup_updAssoc_self, hs] at h
        simp only [Option.map_some', Option.some.injEq] at h
        subst h
        exact ⟨ss, hs, updAssoc_keys _ _ _⟩
      · rw [alookup_updAssoc_ne _ _ _ _ hss] at h
        exact ⟨ss', h, rfl⟩

theorem getLast?_mem {α : Type} (l : List α) (x : α) (h : l.getLast? = some x) :
    x ∈ l := by
  rw [getLast?_decomp l x h]
  exact List.mem_append.2 (Or.inr (by simp))

theorem installInner_storeOK (varId : Nat) (w : Int) (ct : Nat) :
    ∀ (sl : List Nat) (acc : Store × SiteMap) (P : Nat → Nat → Prop),
    sl.Nodup →
    (∀ s ∈ sl, P s varId) →
    StoreOK acc.1 ct P →
    StoreOK
      (sl.foldl
        (fun acc2 s =>
          let store1 := addVersionRun acc2.1 s varId ct w
          let sites1 :=
            if isReplicated varId then
              enableReplicatedRead store1 acc2.2 s varId
            else acc2.2
          (store1, sites1))
        acc).1 ct
      (fun s' i' => P s' i' ∧ ¬(i' = varId ∧ s' ∈ sl)) := by
  intro sl
  induction sl with
  | nil =>
    intro acc P _ _ hok
    exact hok.mono _ _ (fun s i hp => hp.1)
  | cons s0 rest ih =>
    intro acc P hnd hall hok
    rw [List.foldl_cons]
    have hstep : StoreOK (addVersionRun acc.1 s0 varId ct w) ct
        (fun s' i' => P s' i' ∧ ¬(i' = varId ∧ s' = s0)) := by
      cases hsv : storeVers acc.1 s0 varId with
      | none =>
        rw [addVersionRun_none _ _ _ _ _ hsv]
        exact hok.mono _ _ (fun s i hp => hp.1)
      | some vers0 =>
        intro s' i' vers h
        by_cases hsi : s' = s0 ∧ i' = varId
        · obtain ⟨rfl, rfl⟩ := hsi
          rw [storeVers_addVersionRun_self _ _ _ _ _ _ hsv] at h
          injection h with h
          subst h
          obtain ⟨h1, h2, h3⟩ := hok s' i' vers0 hsv
          have hlt := h3 (hall s' (List.mem_cons_self _ _))
          refine ⟨?_, ?_, ?_⟩
          · apply List.Chain'.append h1 (List.chain'_singleton _)
            intro x hx y hy
            simp only [List.head?_cons, Option.mem_def, Option.some.injEq] at hy
            subst hy
            exact hlt x (getLast?_mem _ _ hx)
          · intro ver hver
            rcases List.mem_append.1 hver with hv | hv
            · exact le_of_lt (hlt ver hv)
            · simp only [List.mem_singleton] at hv
              subst hv
              exact le_refl ct
          · intro hp
            exact absurd ⟨rfl, rfl⟩ hp.2
        · rw [storeVers_addVersionRun_other _ _ _ _ _ _ _
            (fun hc => hsi ⟨hc.1, hc.2⟩)] at h
          obtain ⟨h1, h2, h3⟩ := hok s' i' vers h
          exact ⟨h1, h2, fun hp => h3 hp.1⟩
    have hna := (List.nodup_cons.1 hnd).1
    have hihr := ih
      (addVersionRun acc.1 s0 varId ct w,
        if isReplicated varId then
          enableReplicatedRead (addVersionRun acc.1 s0 varId ct w) acc.2 s0 varId
        else acc.2)
      (fun s' i' => P s' i' ∧ ¬(i' = varId ∧ s' = s0))
      (List.nodup_cons.1 hnd).2
      (fun s hs => ⟨hall s (List.mem_cons_of_mem _ hs),
        fun hp => hna (hp.2 ▸ hs)⟩)
      hstep
    refine (hihr.mono _ _ ?_)
    intro s i hp
    refine ⟨⟨hp.1, fun hq => hp.2 ⟨hq.1, hq.2 ▸ List.mem_cons_self _ _⟩⟩, ?_⟩
    intro hq
    exact hp.2 ⟨hq.1, List.mem_cons_of_mem _ hq.2⟩

theorem installWrites_storeOK (ct : Nat) :
    ∀ (ws : List (Nat × WriteEntry)) (acc : Store × SiteMap),
    (ws.map Prod.fst).Nodup →
    (∀ p ∈ ws, p.2.targetSites.Nodup) →
    StoreOK acc.1 ct (fun _ i' => i' ∈ ws.map Prod.fst) →
    StoreOK (installWrites ws ct acc).1 ct (fun _ _ => False) := by
  intro ws
  induction ws with
  | nil =>
    intro acc _ _ hok
    exact hok.mono _ _ (fun s i hp => hp.elim)
  | cons p rest ih =>
    intro acc hnd htn hok
    have hinner := installInner_storeOK p.1 p.2.value ct
      (p.2.targetSites.filter fun s => isAvailable acc.2 s) acc
      (fun _ i' => i' ∈ (p :: rest).map Prod.fst)
      ((htn p (List.mem_cons_self _ _)).sublist (List.filter_sublist _))
      (fun s _ => by
        rw [List.map_cons]
        exact List.mem_cons_self _ _)
      hok
    have hnd2 : ((p :: rest).map Prod.fst).Nodup := hnd
    rw [List.map_cons, List.nodup_cons] at hnd2
    have hih := ih
      ((p.2.targetSites.filter fun s => isAvailable acc.2 s).foldl
        (fun acc2 s =>
          let store1 := addVersionRun acc2.1 s p.1 ct p.2.value
          let sites1 :=
            if isReplicated p.1 then
              enableReplicatedRead store1 acc2.2 s p.1
            else acc2.2
          (store1, sites1))
        acc)
      hnd2.2
      (fun q hq => htn q (List.mem_cons_of_mem _ hq))
      (hinner.mono _ _ (fun s i hp => by
        refine ⟨?_, ?_⟩
        · rw [List.map_cons]
          exact List.mem_cons_of_mem _ hp
        · intro hq
          rw [hq.1] at hp
          exact hnd2.1 hp))
    exact hih

theorem installInner_uptime (varId : Nat) (w : Int) (ct : Nat) :
    ∀ (sl : List Nat) (acc : Store × SiteMap) (s : Nat),
    (alookup
      (sl.foldl
        (fun acc2 s =>
          let store1 := addVersionRun acc2.1 s varId ct w
          let sites1 :=
            if isReplicated varId then
              enableReplicatedRead store1 acc2.2 s varId
            else acc2.2
          (store1, sites1))
        acc).2 s).map Site.uptimeIntervals =
    (alookup acc.2 s).map Site.uptimeIntervals := by
  intro sl
  induction sl with
  | nil => intro acc s; rfl
  | cons s0 rest ih =>
    intro acc s
    rw [List.foldl_cons]
    rw [ih]
    dsimp only
    by_cases hr : isReplicated varId
    · simp only [hr, if_true]
      exact enableRR_uptime _ _ _ _ _
    · simp only [hr, Bool.false_eq_true, if_false]

theorem installWrites_uptime (ct : Nat) :
    ∀ (ws : List (Nat × WriteEntry)) (acc : Store × SiteMap) (s : Nat),
    (alookup (installWrites ws ct acc).2 s).map Site.uptimeIntervals =
    (alookup acc.2 s).map Site.uptimeIntervals := by
  intro ws
  induction ws with
  | nil => intro acc s; rfl
  | cons p rest ih =>
    intro acc s
    unfold installWrites
    rw [List.foldl_cons]
    have h1 := ih
      ((p.2.targetSites.filter fun s => isAvailable acc.2 s).foldl
        (fun acc2 s =>
          let store1 := addVersionRun acc2.1 s p.1 ct p.2.value
          let sites1 :=
            if isReplicated p.1 then
              enableReplicatedRead store1 acc2.2 s p.1
            else acc2.2
          (store1, sites1))
        acc) s
    unfold installWrites at h1
    rw [h1]
    exact installInner_uptime p.1 p.2.value ct _ acc s

theorem installWrites_wasContinuouslyUp (ct : Nat) (ws : List (Nat × WriteEntry))
    (acc : Store × SiteMap) (s a b : Nat) :
    wasContinuouslyUp (installWrites ws ct acc).2 s a b =
    wasContinuouslyUp acc.2 s a b :=
  wasContinuouslyUp_congr acc.2 _ s a b (installWrites_uptime ct ws acc s)

theorem enableRR_keys (store : Store) (sites : SiteMap) (s i : Nat) :
    (enableReplicatedRead store sites s i).map Prod.fst = sites.map Prod.fst := by
  unfold enableReplicatedRead
  exact updAssoc_keys _ _ _

theorem installInner_sitesKeys (varId : Nat) (w : Int) (ct : Nat) :
    ∀ (sl : List Nat) (acc : Store × SiteMap),
    (sl.foldl
      (fun acc2 s =>
        let store1 := addVersionRun acc2.1 s varId ct w
        let sites1 :=
          if isReplicated varId then
            enableReplicatedRead store1 acc2.2 s varId
          else acc2.2
        (store1, sites1))
      acc).2.map Prod.fst = acc.2.map Prod.fst := by
  intro sl
  induction sl with
  | nil => intro acc; rfl
  | cons s0 rest ih =>
    intro acc
    rw [List.foldl_cons, ih]
    dsimp only
    by_cases hr : isReplicated varId
    · simp only [hr, if_true]
      exact enableRR_keys _ _ _ _
    · simp only [hr, Bool.false_eq_true, if_false]

theorem installWrites_sitesKeys (ct : Nat) :
    ∀ (ws : List (Nat × WriteEntry)) (acc : Store × SiteMap),
    (installWrites ws ct acc).2.map Prod.fst = acc.2.map Prod.fst := by
  intro ws
  induction ws with
  | nil => intro acc; rfl
  | cons p rest ih =>
    intro acc
    unfold installWrites
    rw [List.foldl_cons]
    have h1 := ih
      ((p.2.targetSites.filter fun s => isAvailable acc.2 s).foldl
        (fun acc2 s =>
          let store1 := addVersionRun acc2.1 s p.1 ct p.2.value
          let sites1 :=
            if isReplicated p.1 then
              enableReplicatedRead store1 acc2.2 s p.1
            else acc2.2
          (store1, sites1))
        acc)
    unfold installWrites at h1
    rw [h1]
    exact installInner_sitesKeys p.1 p.2.value ct _ acc

theorem installInner_storeKeys (varId : Nat) (w : Int) (ct : Nat) :
    ∀ (sl : List Nat) (acc : Store × SiteMap),
    (sl.foldl
      (fun acc2 s =>
        let store1 := addVersionRun acc2.1 s varId ct w
        let sites1 :=
          if isReplicated varId then
            enableReplicatedRead store1 acc2.2 s varId
          else acc2.2
        (store1, sites1))
      acc).1.map Prod.fst = acc.1.map Prod.fst ∧
    ∀ s' ss', alookup (sl.foldl
      (fun acc2 s =>
        let store1 := addVersionRun acc2.1 s varId ct w
        let sites1 :=
          if isReplicated varId then
            enableReplicatedRead store1 acc2.2 s varId
          else acc2.2
        (store1, sites1))
      acc).1 s' = some ss' →
      ∃ ss, alookup acc.1 s' = some ss ∧ ss'.map Prod.fst = ss.map Prod.fst := by
  intro sl
  induction sl with
  | nil => intro acc; exact ⟨rfl, fun s' ss' h => ⟨ss', h, rfl⟩⟩
  | cons s0 rest ih =>
    intro acc
    rw [List.foldl_cons]
    obtain ⟨hk, hv⟩ := ih
      (addVersionRun acc.1 s0 varId ct w,
        if isReplicated varId then
          enableReplicatedRead (addVersionRun acc.1 s0 varId ct w) acc.2 s0 varId
        else acc.2)
    obtain ⟨hk0, hv0⟩ := addVersionRun_keys acc.1 s0 varId ct w
    refine ⟨by rw [hk]; exact hk0, ?_⟩
    intro s' ss' h
    obtain ⟨ss1, h1, h2⟩ := hv s' ss' h
    obtain ⟨ss2, h3, h4⟩ := hv0 s' ss1 h1
    exact ⟨ss2, h3, h2.trans h4⟩

theorem installWrites_storeKeys (ct : Nat) :
    ∀ (ws : List (Nat × WriteEntry)) (acc : Store × SiteMap),
    (installWrites ws ct acc).1.map Prod.fst = acc.1.map Prod.fst ∧
    ∀ s' ss', alookup (installWrites ws ct acc).1 s' = some ss' →
      ∃ ss, alookup acc.1 s' = some ss ∧ ss'.map Prod.fst = ss.map Prod.fst := by
  intro ws
  induction ws with
  | nil => intro acc; exact ⟨rfl, fun s' ss' h => ⟨ss', h, rfl⟩⟩
  | cons p rest ih =>
    intro acc
    unfold installWrites
    rw [List.foldl_cons]
    obtain ⟨hk, hv⟩ := ih
      ((p.2.targetSites.filter fun s => isAvailable acc.2 s).foldl
        (fun acc2 s =>
          let store1 := addVersionRun acc2.1 s p.1 ct p.2.value
          let sites1 :=
            if isReplicated p.1 then
              enableReplicatedRead store1 acc2.2 s p.1
            else acc2.2
          (store1, sites1))
        acc)
    unfold installWrites at hk hv
    obtain ⟨hk0, hv0⟩ := installInner_storeKeys p.1 p.2.value ct
      (p.2.targetSites.filter fun s => isAvailable acc.2 s) acc
    refine ⟨by rw [hk]; exact hk0, ?_⟩
    intro s' ss' h
    obtain ⟨ss1, h1, h2⟩ := hv s' ss' h
    obtain ⟨ss2, h3, h4⟩ := hv0 s' ss1 h1
    exact ⟨ss2, h3, h2.trans h4⟩

theorem lastWriter_fold_not_mem (x : LastWriterInfo) (idx : Nat) :
    ∀ (ws : List (Nat × WriteEntry)) (lw : List (Nat × LastWriterInfo)),
    idx ∉ ws.map Prod.fst →
    alookup (ws.foldl (fun lw p => aset lw p.1 x) lw) idx = alookup lw idx := by
  intro ws
  induction ws with
  | nil => intro lw _; rfl
  | cons p rest ih =>
    intro lw hm
    rw [List.map_cons, List.mem_cons] at hm
    push_neg at hm
    rw [List.foldl_cons, ih _ hm.2]
    exact alookup_aset_ne _ _ _ _ hm.1

theorem lastWriter_fold_mem (x : LastWriterInfo) (idx : Nat) :
    ∀ (ws : List (Nat × WriteEntry)) (lw : List (Nat × LastWriterInfo)),
    idx ∈ ws.map Prod.fst →
    alookup (ws.foldl (fun lw p => aset lw p.1 x) lw) idx = some x := by
  intro ws
  induction ws with
  | nil => intro lw hm; simp at hm
  | cons p rest ih =>
    intro lw hm
    rw [List.foldl_cons]
    by_cases hr : idx ∈ rest.map Prod.fst
    · exact ih _ hr
    · rw [List.map_cons, List.mem_cons] at hm
      rcases hm with hm | hm
      · rw [lastWriter_fold_not_mem x idx rest _ hr]
        rw [← hm]
        exact alookup_aset_self _ _ _
      · exact absurd hm hr

/-! ## Invariant: commit -/

theorem commitTxn_inv (st : SimState) (t : String) (tx : Transaction)
    (inv : Inv st) (htx : alookup st.txns t = some tx)
    (hact : tx.status = TransactionStatus.Active)
    (hfcw : checkFirstCommitterWins st.lastWriter tx = none)
    (hcyc : hasCycle st.graph t = false) :
    Inv (commitTxn st t).1 := by
  have hR : (commitTxn st t).1 =
      { versionStore :=
          (installWrites tx.writeSet st.currentTime (st.versionStore, st.sites)).1
        sites :=
          (installWrites tx.writeSet st.currentTime (st.versionStore, st.sites)).2
        txns := updAssoc st.txns t fun tx0 =>
          { tx0 with
            status := .Committed
            commitTimestamp := some st.currentTime }
        currentTime := st.currentTime + 1
        lastWriter :=
          tx.writeSet.foldl (fun lw p => aset lw p.1 ⟨t, st.currentTime⟩)
            st.lastWriter
        graph := st.graph
        writeHistory :=
          aset st.writeHistory t
            (tx.writeSet.foldl (fun m p => aset m p.1 st.currentTime) [])
        readHistory := st.readHistory } := by
    unfold commitTxn
    rw [htx]
    rfl
  rw [hR]
  have hpass := (checkFCW_none_iff st.lastWriter tx).1 hfcw
  have hlk : ∀ a tx', alookup (updAssoc st.txns t fun tx0 =>
      { tx0 with
        status := TransactionStatus.Committed
        commitTimestamp := some st.currentTime }) a = some tx' →
      (a = t ∧ tx' =
        { tx with
          status := .Committed
          commitTimestamp := some st.currentTime }) ∨
      (a ≠ t ∧ alookup st.txns a = some tx') := by
    intro a tx' ha
    rcases alookup_updAssoc_cases _ _ _ _ _ ha with ⟨rfl, v0, hv0, rfl⟩ | h2
    · rw [htx] at hv0
      injection hv0 with hv0
      subst hv0
      exact Or.inl ⟨rfl, rfl⟩
    · exact Or.inr h2
  have hup : ∀ s a b, wasContinuouslyUp
      (installWrites tx.writeSet st.currentTime (st.versionStore, st.sites)).2
      s a b = wasContinuouslyUp st.sites s a b :=
    fun s a b => installWrites_wasContinuouslyUp st.currentTime tx.writeSet
      (st.versionStore, st.sites) s a b
  refine
    { sitesKeys := ?_
      storeKeys := ?_
      storeVarKeys := ?_
      versSorted := ?_
      beginLt := ?_
      commitBounds := ?_
      writeSetNodup := ?_
      targetsNodup := ?_
      committedLW := ?_
      fcwCorrect := ?_
      committedAcyclic := ?_
      activeRead := ?_
      committedRead := ?_ }
  · show (installWrites tx.writeSet st.currentTime
      (st.versionStore, st.sites)).2.map Prod.fst = siteIds
    rw [installWrites_sitesKeys]
    exact inv.sitesKeys
  · show (installWrites tx.writeSet st.currentTime
      (st.versionStore, st.sites)).1.map Prod.fst = siteIds
    rw [(installWrites_storeKeys st.currentTime tx.writeSet _).1]
    exact inv.storeKeys
  · intro s ss h
    obtain ⟨ss2, h1, h2⟩ :=
      (installWrites_storeKeys st.currentTime tx.writeSet _).2 s ss h
    rw [h2]
    exact inv.storeVarKeys s ss2 h1
  · intro s i vers h
    have hok : StoreOK (installWrites tx.writeSet st.currentTime
        (st.versionStore, st.sites)).1 st.currentTime (fun _ _ => False) := by
      apply installWrites_storeOK st.currentTime tx.writeSet
        (st.versionStore, st.sites) (inv.writeSetNodup t tx htx)
      · intro p hp
        exact inv.targetsNodup t tx p.1 p.2 htx (by simpa using hp)
      · intro s' i' vers' h'
        obtain ⟨h1, h2⟩ := inv.versSorted s' i' vers' h'
        exact ⟨h1, fun ver hver => le_of_lt (h2 ver hver),
          fun _ ver hver => h2 ver hver⟩
    obtain ⟨h1, h2, _⟩ := hok s i vers h
    exact ⟨h1, fun ver hver => Nat.lt_succ_of_le (h2 ver hver)⟩
  · intro a tx' ha
    rcases hlk a tx' ha with ⟨rfl, rfl⟩ | ⟨_, ha2⟩
    · exact Nat.lt_succ_of_lt (inv.beginLt a tx htx)
    · exact Nat.lt_succ_of_lt (inv.beginLt a tx' ha2)
  · intro a tx' ha hc
    rcases hlk a tx' ha with ⟨rfl, rfl⟩ | ⟨_, ha2⟩
    · exact ⟨st.currentTime, rfl, inv.beginLt a tx htx, Nat.lt_succ_self _⟩
    · obtain ⟨c, h1, h2, h3⟩ := inv.commitBounds a tx' ha2 hc
      exact ⟨c, h1, h2, Nat.lt_succ_of_lt h3⟩
  · intro a tx' ha
    rcases hlk a tx' ha with ⟨rfl, rfl⟩ | ⟨_, ha2⟩
    · exact inv.writeSetNodup a tx htx
    · exact inv.writeSetNodup a tx' ha2
  · intro a tx' j e ha he
    rcases hlk a tx' ha with ⟨rfl, rfl⟩ | ⟨_, ha2⟩
    · exact inv.targetsNodup a tx j e htx he
    · exact inv.targetsNodup a tx' j e ha2 he
  · intro a tx' j e c ha hc he hct
    rcases hlk a tx' ha with ⟨rfl, rfl⟩ | ⟨hane, ha2⟩
    · have hcte0 : some st.currentTime = some c := hct
      have hcte : st.currentTime = c := Option.some.inj hcte0
      subst hcte
      refine ⟨⟨a, st.currentTime⟩, ?_, le_refl _⟩
      exact lastWriter_fold_mem _ _ _ _
        (List.mem_map.2 ⟨(j, e), he, rfl⟩)
    · obtain ⟨w, hw, hle⟩ := inv.committedLW a tx' j e c ha2 hc he hct
      by_cases hjm : j ∈ tx.writeSet.map Prod.fst
      · refine ⟨⟨t, st.currentTime⟩, lastWriter_fold_mem _ _ _ _ hjm, ?_⟩
        obtain ⟨c2, hc2, _, hc3⟩ := inv.commitBounds a tx' ha2 hc
        rw [hct] at hc2
        injection hc2 with hc2
        subst hc2
        exact le_of_lt hc3
      · rw [lastWriter_fold_not_mem _ _ _ _ hjm]
        exact ⟨w, hw, hle⟩
  · intro a b txA txB j eA eB cA cB hA hB hcA hcB heA heB hctA hctB hbb hcc
    rcases hlk a txA hA with ⟨rfl, rfl⟩ | ⟨hane, hA2⟩
    · rcases hlk b txB hB with ⟨heq, rfl⟩ | ⟨hbne, hB2⟩
      · exact absurd hbb (by simp)
      · have hcAe0 : some st.currentTime = some cA := hctA
        have hcAe : st.currentTime = cA := Option.some.inj hcAe0
        obtain ⟨c2, hc2, _, hc3⟩ := inv.commitBounds b txB hB2 hcB
        rw [hctB] at hc2
        have hc4 : cB = c2 := Option.some.inj hc2
        subst hc4
        rw [← hcAe] at hcc
        exact absurd (lt_trans hcc hc3) (lt_irrefl _)
    · rcases hlk b txB hB with ⟨rfl, rfl⟩ | ⟨hbne, hB2⟩
      · obtain ⟨w, hw, hle⟩ := inv.committedLW a txA j eA cA hA2 hcA heA hctA
        have hwle := hpass (j, eB) heB w hw
        exact le_trans hle hwle
      · exact inv.fcwCorrect a b txA txB j eA eB cA cB hA2 hB2 hcA hcB heA heB
          hctA hctB hbb hcc
  · intro x hcyc2
    have hcomm : ∀ u v, cEdge
        { versionStore :=
            (installWrites tx.writeSet st.currentTime
              (st.versionStore, st.sites)).1
          sites :=
            (installWrites tx.writeSet st.currentTime
              (st.versionStore, st.sites)).2
          txns := updAssoc st.txns t fun tx0 =>
            { tx0 with
              status := .Committed
              commitTimestamp := some st.currentTime }
          currentTime := st.currentTime + 1
          lastWriter :=
            tx.writeSet.foldl (fun lw p => aset lw p.1 ⟨t, st.currentTime⟩)
              st.lastWriter
          graph := st.graph
          writeHistory :=
            aset st.writeHistory t
              (tx.writeSet.foldl (fun m p => aset m p.1 st.currentTime) [])
          readHistory := st.readHistory } u v →
        gEdge st.graph u v ∧ (u = t ∨ isCommittedTx st u) ∧
          (v = t ∨ isCommittedTx st v) := by
      rintro u v ⟨hg, hu, hv⟩
      refine ⟨hg, ?_, ?_⟩
      · obtain ⟨tx', hl, hs⟩ := hu
        rcases hlk u tx' hl with ⟨rfl, rfl⟩ | ⟨_, hl2⟩
        · exact Or.inl rfl
        · exact Or.inr ⟨tx', hl2, hs⟩
      · obtain ⟨tx', hl, hs⟩ := hv
        rcases hlk v tx' hl with ⟨rfl, rfl⟩ | ⟨_, hl2⟩
        · exact Or.inl rfl
        · exact Or.inr ⟨tx', hl2, hs⟩
    have hnot : ¬ Relation.TransGen (gEdge st.graph) t t :=
      hasCycle_false_sound st.graph t hcyc
    by_cases hxt : x = t
    · subst hxt
      exact hnot (Relation.TransGen.mono (fun u v h => (hcomm u v h).1) hcyc2)
    · rcases transGen_avoid_or_through _ t x hxt x hcyc2 hxt with hL | ⟨hR1, hR2⟩
      · refine inv.committedAcyclic x (Relation.TransGen.mono ?_ hL)
        rintro u v ⟨h1, hut, hvt⟩
        obtain ⟨hg, hu, hv⟩ := hcomm u v h1
        refine ⟨hg, ?_, ?_⟩
        · rcases hu with h2 | h2
          · exact absurd h2 hut
          · exact h2
        · rcases hv with h2 | h2
          · exact absurd h2 hvt
          · exact h2
      · have htx2 : Relation.TransGen (gEdge st.graph) t t := by
          have hRg1 : Relation.ReflTransGen (gEdge st.graph) x t :=
            Relation.ReflTransGen.mono (fun u v h => (hcomm u v h).1) hR1
          have hRg2 : Relation.ReflTransGen (gEdge st.graph) t x :=
            Relation.ReflTransGen.mono (fun u v h => (hcomm u v h).1) hR2
          rcases Relation.ReflTransGen.cases_head hRg2 with heq | ⟨m, hm, hrest⟩
          · exact absurd heq.symm hxt
          · exact Relation.TransGen.trans_left
              (Relation.TransGen.head'_iff.2 ⟨m, hm, hrest⟩) hRg1
        exact hnot htx2
  · intro a tx' j e ha hs he
    rcases hlk a tx' ha with ⟨rfl, rfl⟩ | ⟨_, ha2⟩
    · exact absurd hs (by simp)
    · obtain ⟨h1, h2⟩ := inv.activeRead a tx' j e ha2 hs he
      rw [hup]
      exact ⟨h1, h2⟩
  · intro a tx' j e ha hs he
    rcases hlk a tx' ha with ⟨rfl, rfl⟩ | ⟨_, ha2⟩
    · obtain ⟨h1, _⟩ := inv.activeRead a tx j e htx hact he
      rw [hup]
      exact h1
    · rw [hup]
      exact inv.committedRead a tx' j e ha2 hs he

theorem graphExtend_inv (st : SimState) (t : String) (tx : Transaction)
    (inv : Inv st) (htx : alookup st.txns t = some tx)
    (hact : tx.status = TransactionStatus.Active) :
    Inv { st with
      graph := addRWEdges (addWWEdges st.graph st.lastWriter t tx.writeSet)
        st.readHistory t tx.writeSet } := by
  refine
    { sitesKeys := inv.sitesKeys
      storeKeys := inv.storeKeys
      storeVarKeys := inv.storeVarKeys
      versSorted := inv.versSorted
      beginLt := inv.beginLt
      commitBounds := inv.commitBounds
      writeSetNodup := inv.writeSetNodup
      targetsNodup := inv.targetsNodup
      committedLW := inv.committedLW
      fcwCorrect := inv.fcwCorrect
      committedAcyclic := ?_
      activeRead := inv.activeRead
      committedRead := inv.committedRead }
  intro x hcyc
  refine inv.committedAcyclic x (Relation.TransGen.mono ?_ hcyc)
  rintro u v ⟨hg, hu, hv⟩
  have hvt : ¬ v = t := by
    intro hvt2
    subst hvt2
    obtain ⟨tx', hl, hs⟩ := hv
    rw [htx] at hl
    injection hl with hl
    subst hl
    rw [hact] at hs
    exact absurd hs (by simp)
  rcases gEdge_addRWEdges _ _ _ _ _ _ hg with h1 | h1
  · rcases gEdge_addWWEdges _ _ _ _ _ _ h1 with h2 | h2
    · exact ⟨h2, hu, hv⟩
    · exact absurd h2 hvt
  · exact absurd h1 hvt

theorem endTxn_inv (st : SimState) (t : String) (inv : Inv st) :
    Inv (endTxn st t).1 := by
  cases htx : alookup st.txns t with
  | none =>
    rw [show (endTxn st t).1 = st from by unfold endTxn; rw [htx]]
    exact inv
  | some tx =>
    have hactive : ∀ tx', alookup st.txns t = some tx' →
        tx.status = TransactionStatus.Active →
        tx'.status = TransactionStatus.Active := by
      intro tx' htx' ha
      rw [htx] at htx'
      injection htx' with e
      rw [← e]
      exact ha
    by_cases hact : tx.status = TransactionStatus.Active
    · by_cases h1 : tx.touchedSites.any fun s => !(isAvailable st.sites s)
      · rw [show (endTxn st t).1 = (abort st t .siteFailureAfterAccess).1 from by
          unfold endTxn; rw [htx]; simp [hact, h1]]
        exact abort_inv st t _ inv (fun tx' htx' => hactive tx' htx' hact)
      · by_cases h2 : tx.writeSet.any fun p =>
            (p.2.targetSites.filter fun s => isAvailable st.sites s).isEmpty
        · rw [show (endTxn st t).1 = (abort st t .noAvailableSiteForWrite).1
              from by unfold endTxn; rw [htx]; simp [hact, h1, h2]]
          exact abort_inv st t _ inv (fun tx' htx' => hactive tx' htx' hact)
        · cases hfcw : checkFirstCommitterWins st.lastWriter tx with
          | some r =>
            rw [show (endTxn st t).1 = (abort st t r).1 from by
              unfold endTxn; rw [htx]; simp [hact, h1, h2, hfcw]]
            exact abort_inv st t _ inv (fun tx' htx' => hactive tx' htx' hact)
          | none =>
            have invg : Inv { st with
                graph := addRWEdges (addWWEdges st.graph st.lastWriter t
                  tx.writeSet) st.readHistory t tx.writeSet } :=
              graphExtend_inv st t tx inv htx hact
            by_cases hcyc : hasCycle (addRWEdges (addWWEdges st.graph
                st.lastWriter t tx.writeSet) st.readHistory t tx.writeSet) t
            · rw [show (endTxn st t).1 =
                (abort { st with
                  graph := addRWEdges (addWWEdges st.graph st.lastWriter t
                    tx.writeSet) st.readHistory t tx.writeSet } t
                  .serializationCycle).1 from by
                unfold endTxn; rw [htx]; simp [hact, h1, h2, hfcw, hcyc]]
              exact abort_inv _ t _ invg
                (fun tx' htx' => hactive tx' htx' hact)
            · rw [show (endTxn st t).1 =
                (commitTxn { st with
                  graph := addRWEdges (addWWEdges st.graph st.lastWriter t
                    tx.writeSet) st.readHistory t tx.writeSet } t).1 from by
                unfold endTxn; rw [htx]; simp [hact, h1, h2, hfcw, hcyc]]
              exact commitTxn_inv _ t tx invg htx hact hfcw
                (by simpa using hcyc)
    · rw [show (endTxn st t).1 = st from by
        unfold endTxn; rw [htx]; simp [hact]]
      exact inv

theorem execCmd_inv (st : SimState) (c : Command) (inv : Inv st) :
    Inv (execCmd st c).1 := by
  cases c with
  | begin t => exact begin_inv st t inv
  | endT t => exact endTxn_inv st t inv
  | read t i => exact read_inv st t i inv
  | write t i v => exact write_inv st t i v inv
  | fail s =>
    have h1 : Inv { st with sites := failSite st.sites s st.currentTime } :=
      failSite_inv st s inv
    have h2 : Inv (handleSiteFailure
        { st with sites := failSite st.sites s st.currentTime } s).1 :=
      handleSiteFailure_inv _ s h1
    exact inv_time_bump _ h2 _ (Nat.le_succ _)
  | recover s =>
    have h1 : Inv { st with
        sites := recoverSite st.versionStore st.sites s st.currentTime } :=
      recoverSite_inv st s inv
    exact inv_time_bump _ h1 _ (Nat.le_succ _)
  | dump => exact inv
  | dumpVariable i => exact inv
  | dumpSite s => exact inv
  | reset => exact inv_init

theorem reachable_inv (st : SimState) (h : Reachable st) : Inv st := by
  induction h with
  | init => exact inv_init
  | step c st h ih => exact execCmd_inv st c ih

/-! ## Claims C4, C5, C6, C7 -/

theorem mem_evenVarIds (i : Nat) (hrep : isReplicated i = true) (h1 : 1 ≤ i)
    (h2 : i ≤ 20) : i ∈ evenVarIds := by
  unfold isReplicated at hrep
  simp only [decide_eq_true_eq] at hrep
  unfold evenVarIds
  simp only [List.mem_map, List.mem_range]
  exact ⟨i / 2 - 1, by omega, by omega⟩

/-- Claim C4: checkFirstCommitterWins rejects exactly when some written
variable has a last committed writer whose commit time exceeds the begin
timestamp, with the corresponding conflict reason; consequently, in every
reachable state, committed transactions A and B writing the same variable
with begin_A < begin_B and commit_A < commit_B satisfy
commit_A ≤ begin_B (so commit_A > begin_B would have prevented B's commit). -/
theorem C4_first_committer_wins :
    (∀ (lw : List (Nat × LastWriterInfo)) (tx : Transaction),
      ((∃ r, checkFirstCommitterWins lw tx = some r) ↔
        ∃ i e w, (i, e) ∈ tx.writeSet ∧ alookup lw i = some w ∧
          tx.beginTimestamp < w.commitTime) ∧
      (∀ r, checkFirstCommitterWins lw tx = some r →
        ∃ i e w, (i, e) ∈ tx.writeSet ∧ alookup lw i = some w ∧
          tx.beginTimestamp < w.commitTime ∧
          r = .fcwConflict i w.transactionId)) ∧
    (∀ (st : SimState) (a b : String) (txA txB : Transaction) (i : Nat)
        (eA eB : WriteEntry) (cA cB : Nat), Reachable st →
      alookup st.txns a = some txA → alookup st.txns b = some txB →
      txA.status = .Committed → txB.status = .Committed →
      (i, eA) ∈ txA.writeSet → (i, eB) ∈ txB.writeSet →
      txA.commitTimestamp = some cA → txB.commitTimestamp = some cB →
      txA.beginTimestamp < txB.beginTimestamp → cA < cB →
      cA ≤ txB.beginTimestamp) := by
  constructor
  · intro lw tx
    constructor
    · constructor
      · rintro ⟨r, hr⟩
        obtain ⟨i, e, w, he, hw, hlt, _⟩ := checkFCW_some_spec lw tx r hr
        exact ⟨i, e, w, he, hw, hlt⟩
      · rintro ⟨i, e, w, he, hw, hlt⟩
        cases hr : checkFirstCommitterWins lw tx with
        | some r => exact ⟨r, rfl⟩
        | none =>
          have := (checkFCW_none_iff lw tx).1 hr (i, e) he w hw
          omega
    · intro r hr
      exact checkFCW_some_spec lw tx r hr
  · intro st a b txA txB i eA eB cA cB hreach hA hB hcA hcB heA heB hctA hctB
      hbb hcc
    exact (reachable_inv st hreach).fcwCorrect a b txA txB i eA eB cA cB hA hB
      hcA hcB heA heB hctA hctB hbb hcc

/-- Witness for C4: a concrete rejection with its reason, and the
FCW-correctness consequence evaluated on the committed history
begin(T1) W(T1,x1,1) end(T1) begin(T2) W(T2,x1,2) end(T2). -/
theorem C4_witness :
    (∃ r, checkFirstCommitterWins [(1, ⟨"T1", 5⟩)]
      { status := .Active
        beginTimestamp := 3
        commitTimestamp := none
        readSet := []
        writeSet := [(1, ⟨7, [1]⟩)]
        touchedSites := [1] } = some r) ∧
    (2 : Nat) ≤ 3 := by
  constructor
  · exact (C4_first_committer_wins.1 [(1, ⟨"T1", 5⟩)] _).1.2
      ⟨1, ⟨7, [1]⟩, ⟨"T1", 5⟩, by decide, by decide, by decide⟩
  · exact C4_first_committer_wins.2
      (execCmds [.begin "T1", .write "T1" 1 1, .endT "T1", .begin "T2",
        .write "T2" 1 2, .endT "T2"] initState).1
      "T1" "T2"
      { status := .Committed
        beginTimestamp := 1
        commitTimestamp := some 2
        readSet := []
        writeSet := [(1, ⟨1, [1]⟩)]
        touchedSites := [1] }
      { status := .Committed
        beginTimestamp := 3
        commitTimestamp := some 4
        readSet := []
        writeSet := [(1, ⟨2, [1]⟩)]
        touchedSites := [1] }
      1 ⟨1, [1]⟩ ⟨2, [1]⟩ 2 4
      (reachable_execCmds _ initState Reachable.init)
      (by decide) (by decide) rfl rfl (by decide) (by decide) rfl rfl
      (by decide) (by decide)

/-- Claim C5: in every reachable state the subgraph of the serialization
graph induced by committed transactions is acyclic. -/
theorem C5_committed_acyclic (st : SimState) (h : Reachable st) (t : String) :
    ¬ Relation.TransGen (cEdge st) t t :=
  (reachable_inv st h).committedAcyclic t

/-- Witness for C5 at the initial state. -/
theorem C5_witness : ¬ Relation.TransGen (cEdge initState) "T1" "T1" :=
  C5_committed_acyclic initState Reachable.init "T1"

/-- Claim C6: if a committed transaction read variable i from site s with
version timestamp V (recorded in its read set), then in every reachable state
where it is committed the site was continuously up over [V, begin]: some
uptime interval starts at or before V and is still open or ends at or after
the begin timestamp. -/
theorem C6_read_continuity (st : SimState) (h : Reachable st) (t : String)
    (tx : Transaction) (i : Nat) (e : ReadEntry)
    (htx : alookup st.txns t = some tx)
    (hc : tx.status = .Committed)
    (he : (i, e) ∈ tx.readSet) :
    wasContinuouslyUp st.sites e.siteId e.timestamp tx.beginTimestamp = true ∧
    ∃ site, alookup st.sites e.siteId = some site ∧
      ∃ iv ∈ site.uptimeIntervals, iv.start ≤ e.timestamp ∧
        (iv.stop = none ∨
          ∃ en, iv.stop = some en ∧ tx.beginTimestamp ≤ en) := by
  have h1 := (reachable_inv st h).committedRead t tx i e htx hc he
  exact ⟨h1, (wasContinuouslyUp_iff _ _ _ _).1 h1⟩

/-- Witness for C6 after begin(T1) R(T1,x2) end(T1): T1 committed having
read x2 from site 1 at version timestamp 0, and site 1 was continuously up
over [0, 1]. -/
theorem C6_witness :
    wasContinuouslyUp
      (execCmds [.begin "T1", .read "T1" 2, .endT "T1"] initState).1.sites
      1 0 1 = true := by
  have h := C6_read_continuity
    (execCmds [.begin "T1", .read "T1" 2, .endT "T1"] initState).1
    (reachable_execCmds _ initState Reachable.init)
    "T1"
    { status := .Committed
      beginTimestamp := 1
      commitTimestamp := some 2
      readSet := [(2, ⟨1, 0⟩)]
      writeSet := []
      touchedSites := [1] }
    2 ⟨1, 0⟩ (by decide) rfl (by decide)
  exact h.1

/-- Claim C7: in every reachable state, each per-(site, variable) version
list has strictly increasing timestamps, all at most the current logical
time. -/
theorem C7_monotone_versions (st : SimState) (h : Reachable st) (s i : Nat)
    (vers : List Version) (hv : storeVers st.versionStore s i = some vers) :
    List.Chain' (fun a b => a.timestamp < b.timestamp) vers ∧
    ∀ ver ∈ vers, ver.timestamp ≤ st.currentTime := by
  obtain ⟨h1, h2⟩ := (reachable_inv st h).versSorted s i vers hv
  exact ⟨h1, fun ver hver => le_of_lt (h2 ver hver)⟩

/-- Witness for C7 at the initial state: the seed version list of x2 at
site 1. -/
theorem C7_witness :
    List.Chain' (fun a b => a.timestamp < b.timestamp)
      [(⟨0, 20⟩ : Version)] ∧
    ∀ ver ∈ [(⟨0, 20⟩ : Version)], ver.timestamp ≤ initState.currentTime :=
  C7_monotone_versions initState Reachable.init 1 2 [⟨0, 20⟩] (by decide)

/-! ## Claim C10 -/

theorem hasVariable_site1 (st : SimState) (inv : Inv st) (i : Nat)
    (hrep : isReplicated i = true) (h1 : 1 ≤ i) (h2 : i ≤ 20) :
    hasVariable st.versionStore 1 i = true := by
  have h1mem : (1 : Nat) ∈ st.versionStore.map Prod.fst := by
    rw [inv.storeKeys]; decide
  have hsome : (alookup st.versionStore 1).isSome = true :=
    (alookup_isSome_iff _ _).2 h1mem
  obtain ⟨ss, hss⟩ := Option.isSome_iff_exists.1 hsome
  have hkeys := inv.storeVarKeys 1 ss hss
  have himem : i ∈ ss.map Prod.fst := by
    rw [hkeys]
    unfold variableIdsForSite
    exact List.mem_append_left _ (mem_evenVarIds i hrep h1 h2)
  have hisome : (alookup ss i).isSome = true :=
    (alookup_isSome_iff _ _).2 himem
  simp only [hasVariable, hss]
  exact hisome

theorem sitesForVariable_head (st : SimState) (inv : Inv st) (i : Nat)
    (hrep : isReplicated i = true) (h1 : 1 ≤ i) (h2 : i ≤ 20) :
    (getSitesForVariable st.versionStore st.sites i).head? = some 1 := by
  have hvar := hasVariable_site1 st inv i hrep h1 h2
  have hids : getAllSiteIds st.sites = [1, 2, 3, 4, 5, 6, 7, 8, 9, 10] := by
    unfold getAllSiteIds
    rw [inv.sitesKeys]
    decide
  unfold getSitesForVariable
  rw [hids]
  simp [List.filter_cons, hvar]

/-- Claim C10: for every replicated (even) variable, the dump loop decides
whether the variable changed and which value to print from the latest
version at the lowest-numbered site holding it — always site 1 — with no
reference to that site's availability, printing the all-sites line when
that single value differs from 10·i; a produced line appears in dump's
output. -/
theorem C10_dump_site1_only (st : SimState) (h : Reachable st) (i : Nat)
    (hrep : isReplicated i = true) (h1 : 1 ≤ i) (h2 : i ≤ 20) :
    dumpEntry st i =
      (match getLatestVersion st.versionStore 1 i with
       | some ver =>
         if ver.value = (i : Int) * 10 then none
         else some (Line.dumpAllSites i ver.value)
       | none => none) ∧
    ∀ l, dumpEntry st i = some l → l ∈ dump st := by
  have inv := reachable_inv st h
  have hhead := sitesForVariable_head st inv i hrep h1 h2
  constructor
  · simp only [dumpEntry, hrep, if_true, hhead]
  · intro l hl
    unfold dump
    refine List.mem_append_left _ ?_
    refine List.mem_filterMap.2 ⟨i, ?_, hl⟩
    simp only [List.mem_map, List.mem_range, NUM_VARIABLES]
    exact ⟨i - 1, by omega, by omega⟩

/-- Witness for C10 at the initial state and x2: the dump decision for x2
is computed from site 1's latest version alone. -/
theorem C10_witness :
    dumpEntry initState 2 =
      (match getLatestVersion initState.versionStore 1 2 with
       | some ver =>
         if ver.value = (2 : Int) * 10 then none
         else some (Line.dumpAllSites 2 ver.value)
       | none => none) ∧
    ∀ l, dumpEntry initState 2 = some l → l ∈ dump initState :=
  C10_dump_site1_only initState Reachable.init 2 (by decide) (by decide)
    (by decide)

end RepSim
